import Mathlib

/-!
# Adjacency-list graph (`main.c`): embedding and verified properties

The C module keeps a fixed array of `Vertex` records; every vertex owns a singly
linked list of `Node`s holding positions of its neighbours, and a cursor into
that list.

Representation choices of the embedding:

* a linked list of `Node`s is the `List Nat` of the `index` fields, head first;
  `NULL` is `[]`;
* the cursor (a `Node*` into the neighbour list) is the list of nodes that starts
  at the node it points to, so `NULL` is `[]`;
* a `Vertex*` into the vertex array is the position it points to;
* an `assert` that fails is the result `none`, and so is an access to the vertex
  array through a negative index, whose behaviour is undefined;
* `int` values are `Int`, `size_t` values are `Nat`; `int` is 32 bits wide,
  `size_t` and `long` are 64 bits wide, all in two's complement: the `return i` of
  `find` keeps the low 32 bits (`int_of_size_t`), an `int` stored in or compared
  with a `size_t` is taken modulo `2^64` (`size_t_of_int`), and `%ld` prints a
  `size_t` as the `long` with the same bits (`long_of_size_t`);
* `malloc`/`calloc` are taken to succeed; the number of nodes a call allocates
  or frees is given by a separate counting function that follows the same code;
* the output of `printf` is the `String` written; the rendering of a pointer by
  `%p` is a parameter.
-/

namespace Graphs

/-- Pair of the key and the index into the data table (`Map`). -/
structure Map where
  key : Int
  data_idx : Nat
deriving DecidableEq

/-- A vertex (`Vertex`): its map, its neighbour list and its cursor. -/
structure Vertex where
  map : Map
  neighbors : List Nat
  cursor : List Nat
deriving DecidableEq

/-- What `calloc` produces for one array element: every field zero. -/
def Vertex.zero : Vertex := ⟨⟨0, 0⟩, [], []⟩

instance : Inhabited Vertex := ⟨Vertex.zero⟩

/-- Kind of graph (`eGraphType`). -/
inductive eGraphType where
  | UNDIRECTED
  | DIRECTED
deriving DecidableEq

/-- The graph record (`Graph`): vertex array, its size, the number of vertices
in use and the kind. -/
structure Graph where
  vertices : List Vertex
  size : Nat
  len : Nat
  type : eGraphType
deriving DecidableEq

/-- Read of `vertices[ i ]`. -/
def Graph.slot (g : Graph) (i : Nat) : Vertex := g.vertices.getD i default

/-- The allocation invariant of the vertex array: it has `size` elements and
`len` does not exceed `size`. -/
def Graph.WF (g : Graph) : Prop := g.vertices.length = g.size ∧ g.len ≤ g.size

instance (g : Graph) : Decidable g.WF := by
  unfold Graph.WF
  infer_instance

/-! ## Vertex operations -/

/-- Function `Vertex_Get`: index held by the node under the cursor; the assertion
`v->cursor` fails on a null cursor. -/
def Vertex_Get (v : Vertex) : Option Nat :=
  match v.cursor with
  | [] => none
  | index :: _ => some index

/-- Function `Vertex_Start`: the cursor is moved to the head of the neighbour list. -/
def Vertex_Start (v : Vertex) : Vertex := { v with cursor := v.neighbors }

/-- Function `Vertex_Next`: the cursor moves to the next node; the assertion `v->cursor`
fails on a null cursor. -/
def Vertex_Next (v : Vertex) : Option Vertex :=
  match v.cursor with
  | [] => none
  | _ :: next => some { v with cursor := next }

/-- Function `Vertex_End`: whether the cursor is null. -/
def Vertex_End (v : Vertex) : Bool :=
  match v.cursor with
  | [] => true
  | _ :: _ => false

/-- Function `Vertex_GetDataIndex`. -/
def Vertex_GetDataIndex (v : Vertex) : Nat := v.map.data_idx

/-! ## Graph operations -/

/-- The initialisation loop of `Graph_New`: `n` iterations starting at `i`, each
one zeroing `key`, `data_idx` and `neighbors` of `vertices[ i ]`. -/
def Graph_New_loop : Nat → Nat → List Vertex → List Vertex
  | 0, _, vertices => vertices
  | n + 1, i, vertices =>
    Graph_New_loop n (i + 1)
      (vertices.set i { map := ⟨0, 0⟩, neighbors := [], cursor := (vertices.getD i default).cursor })

/-- Function `Graph_New`: asserts `size > 0`, then builds the record with a zeroed array of
`size` vertices and runs the initialisation loop. -/
def Graph_New (size : Nat) (type : eGraphType) : Option Graph :=
  if 0 < size then
    some { vertices := Graph_New_loop size 0 (List.replicate size Vertex.zero)
           size := size
           len := 0
           type := type }
  else none

/-- Function `Graph_AddVertex`: asserts `len < size`, writes key, data index and an empty
neighbour list into `vertices[ len ]` (the cursor field is not written), and
increments `len`. -/
def Graph_AddVertex (g : Graph) (key : Int) (index : Nat) : Option Graph :=
  if g.len < g.size then
    some { g with
      vertices := g.vertices.set g.len
        { map := ⟨key, index⟩, neighbors := [], cursor := (g.slot g.len).cursor }
      len := g.len + 1 }
  else none

/-- Function `Graph_GetSize`. -/
def Graph_GetSize (g : Graph) : Nat := g.size

/-- Function `Graph_GetLen`. -/
def Graph_GetLen (g : Graph) : Nat := g.len

/-- Conversion of a `size_t` to `int`, as in `return i` of `find`: the low 32 bits,
read in two's complement. It is the value itself below `2^31`. -/
def int_of_size_t (i : Nat) : Int :=
  ((i : Int) + 2147483648) % 4294967296 - 2147483648

/-- Conversion of an `int` to `size_t`, as in `n->index = index` and in the
comparison `node->index == index`: the value itself when it is not negative,
`2^64` more when it is negative. -/
def size_t_of_int (index : Int) : Nat :=
  if 0 ≤ index then index.toNat else (index + 18446744073709551616).toNat

/-- The `long` that has the bits of a `size_t`, which is what `%ld` prints for a
`size_t` argument. It is the value itself below `2^63`. -/
def long_of_size_t (x : Nat) : Int :=
  ((x : Int) + 9223372036854775808) % 18446744073709551616 - 9223372036854775808

/-- Loop of `find`: `n` iterations starting at `i`; the position of the first
vertex whose key is `key`, converted to `int`, and `-1` when the loop runs out. -/
def find_loop (vertices : List Vertex) (key : Int) : Nat → Nat → Int
  | 0, _ => -1
  | n + 1, i =>
    if (vertices.getD i default).map.key = key then int_of_size_t i
    else find_loop vertices key n (i + 1)

/-- Function `find( vertices, size, key )`: first position in `[0, size)` whose key is
`key`, as an `int`, or `-1`. -/
def find (vertices : List Vertex) (size : Nat) (key : Int) : Int :=
  find_loop vertices key size 0

/-- Loop of `find_index_in_vertex` over the nodes of a neighbour list. -/
def find_index_in_nodes : List Nat → Int → Bool
  | [], _ => false
  | node :: next, index =>
    if node = size_t_of_int index then true else find_index_in_nodes next index

/-- Function `find_index_in_vertex`: whether `index` is already in the neighbour list. -/
def find_index_in_vertex (vertex : Vertex) (index : Int) : Bool :=
  find_index_in_nodes vertex.neighbors index

/-- Function `insert( vertex, index )`: when `index` is not in the neighbour list, a new
node holding it is put at the front; otherwise nothing changes. -/
def insert (vertex : Vertex) (index : Int) : Vertex :=
  if find_index_in_vertex vertex index = false then
    { vertex with neighbors := size_t_of_int index :: vertex.neighbors }
  else vertex

/-- Function `Graph_AddEdge`: asserts `len > 0`; looks both keys up with
`find( g->vertices, g->size, ... )` and keeps the results in `int`; returns `false`
when one of them is `-1`; otherwise inserts `finish_idx` into the vertex at
`start_idx`, also `start_idx` into the vertex at `finish_idx` when the graph is
`UNDIRECTED`, and returns `true`. `&g->vertices[ k ]` with a negative `k` is
outside the array: the call then has no result. The result pairs the returned
value with the graph afterwards. -/
def Graph_AddEdge (g : Graph) (start finish : Int) : Option (Bool × Graph) :=
  if 0 < g.len then
    let start_idx := find g.vertices g.size start
    let finish_idx := find g.vertices g.size finish
    if start_idx = -1 ∨ finish_idx = -1 then some (false, g)
    else if start_idx < 0 then none
    else
      let g1 : Graph :=
        { g with vertices :=
            g.vertices.set start_idx.toNat (insert (g.slot start_idx.toNat) finish_idx) }
      if g1.type = eGraphType.UNDIRECTED then
        if finish_idx < 0 then none
        else
          some (true,
            { g1 with vertices :=
                g1.vertices.set finish_idx.toNat (insert (g1.slot finish_idx.toNat) start_idx) })
      else some (true, g1)
  else none

/-- Loop shared by the searches over the vertices in use: `n` iterations
starting at `i`; the first position whose key is `key`, if any. -/
def key_loop (vertices : List Vertex) (key : Int) : Nat → Nat → Option Nat
  | 0, _ => none
  | n + 1, i =>
    if (vertices.getD i default).map.key = key then some i
    else key_loop vertices key n (i + 1)

/-- Function `Graph_GetNeighborsByKey`: neighbour list of the first vertex in `[0, len)`
with the key; `NULL` when there is none. -/
def Graph_GetNeighborsByKey (g : Graph) (key : Int) : List Nat :=
  match key_loop g.vertices key g.len 0 with
  | some i => (g.slot i).neighbors
  | none => []

/-- Function `Graph_GetVertexByKey`: pointer to the first vertex in `[0, len)` with the
key; `NULL` (`none`) when there is none. -/
def Graph_GetVertexByKey (g : Graph) (key : Int) : Option Nat :=
  key_loop g.vertices key g.len 0

/-- Function `Graph_GetVertexByIndex`: asserts `index < len`, returns `&vertices[ index ]`. -/
def Graph_GetVertexByIndex (g : Graph) (index : Nat) : Option Nat :=
  if index < g.len then some index else none

/-- Function `Graph_GetIndex`: position of the first vertex in `[0, len)` whose key is the
key of `v`; the final assertion `index < len` fails when there is none. -/
def Graph_GetIndex (g : Graph) (v : Vertex) : Option Nat :=
  key_loop g.vertices v.map.key g.len 0

/-! ## Runs of the interface -/

/-- One call of the building interface. -/
inductive Call where
  | addVertex (key : Int) (index : Nat)
  | addEdge (start finish : Int)
deriving DecidableEq

/-- Effect of one call on the graph; `none` when an assertion of the call fails. -/
def Call.run (g : Graph) : Call → Option Graph
  | .addVertex key index => Graph_AddVertex g key index
  | .addEdge start finish => (Graph_AddEdge g start finish).map Prod.snd

/-- Effect of a sequence of calls, stopping at the first failed assertion. -/
def runCalls (g : Graph) : List Call → Option Graph
  | [] => some g
  | c :: cs => (c.run g).bind fun g1 => runCalls g1 cs

/-- Graphs the interface can build: `Graph_New` followed by any calls of
`Graph_AddVertex` and `Graph_AddEdge` whose assertions hold. -/
inductive Reachable : Graph → Prop where
  | new (size : Nat) (type : eGraphType) (g : Graph) :
      Graph_New size type = some g → Reachable g
  | addVertex (g g1 : Graph) (key : Int) (index : Nat) :
      Reachable g → Graph_AddVertex g key index = some g1 → Reachable g1
  | addEdge (g g1 : Graph) (start finish : Int) (r : Bool) :
      Reachable g → Graph_AddEdge g start finish = some (r, g1) → Reachable g1

/-! ## Auxiliary definitions for the statements -/

/-- One insertion of `Graph_AddEdge`: `insert( &vertices[ i ], j )`. -/
def edgeStep (vs : List Vertex) (i j : Nat) : List Vertex :=
  vs.set i (insert (vs.getD i default) (j : Int))

/-- The vertex array after `Graph_AddEdge` has inserted the edge from position
`ps` to position `pf`. -/
def edgeVertices (g : Graph) (ps pf : Nat) : List Vertex :=
  if g.type = eGraphType.UNDIRECTED then edgeStep (edgeStep g.vertices ps pf) pf ps
  else edgeStep g.vertices ps pf

/-- Invariant of the interface: the array is well formed and no neighbour list
holds a position twice. -/
def Graph.Inv (g : Graph) : Prop :=
  g.WF ∧ ∀ i, (g.slot i).neighbors.Nodup

/-- Graph of two undirected slots holding keys 1 and 2. -/
def sampleC1 : Graph :=
  ⟨[⟨⟨1, 0⟩, [], []⟩, ⟨⟨2, 1⟩, [], []⟩], 2, 2, eGraphType.UNDIRECTED⟩

/-- Graph built by `Graph_New( 2, DIRECTED )` and `Graph_AddVertex( g, 5, 0 )`: one
vertex in use, one slot still zeroed. -/
def sampleOneOfTwo : Graph :=
  ⟨[⟨⟨5, 0⟩, [], []⟩, ⟨⟨0, 0⟩, [], []⟩], 2, 1, eGraphType.DIRECTED⟩

/-- Directed graph with keys 1 and 2 in use. -/
def sampleC3 : Graph :=
  ⟨[⟨⟨1, 0⟩, [], []⟩, ⟨⟨2, 1⟩, [], []⟩], 2, 2, eGraphType.DIRECTED⟩

/-- Graph after `Graph_AddEdge( g, 5, 0 )` on `sampleOneOfTwo`. -/
def sampleDangling : Graph :=
  ⟨[⟨⟨5, 0⟩, [1], []⟩, ⟨⟨0, 0⟩, [], []⟩], 2, 1, eGraphType.DIRECTED⟩

/-- Undirected graph of one vertex after the self-loop `Graph_AddEdge( g, 7, 7 )`. -/
def sampleSelfLoop : Graph :=
  ⟨[⟨⟨7, 0⟩, [0], []⟩], 1, 1, eGraphType.UNDIRECTED⟩

/-- Result of `k` successive calls of `Vertex_Next`; `none` when one of them
fails its assertion. -/
def Vertex_Next_times : Nat → Vertex → Option Vertex
  | 0, v => some v
  | k + 1, v => (Vertex_Next v).bind (Vertex_Next_times k)

/-- Body and step of the loop `for( ...; !Vertex_End( v ); Vertex_Next( v ) )` with
`index = Vertex_Get( v )` in its body: the indices read so far are appended to
`visited`. `fuel` bounds the number of tests of the loop condition; `none` is a
failed assertion or exhausted fuel. -/
def traverse_loop : Nat → Vertex → List Nat → Option (List Nat)
  | 0, _, _ => none
  | fuel + 1, v, visited =>
    if Vertex_End v then some visited
    else
      match Vertex_Get v with
      | none => none
      | some index =>
        match Vertex_Next v with
        | none => none
        | some v1 => traverse_loop fuel v1 (visited ++ [index])

/-- The loop `for( Vertex_Start( v ); !Vertex_End( v ); Vertex_Next( v ) )` reading
`Vertex_Get( v )` in each iteration; the result is the list of indices read. -/
def traverse (fuel : Nat) (v : Vertex) : Option (List Nat) :=
  traverse_loop fuel (Vertex_Start v) []

/-- Vertex with key 6 whose neighbour list is `[8, 6]`. -/
def sampleVertex : Vertex := ⟨⟨6, 5⟩, [8, 6], []⟩

/-- Function `insert` applied to the positions of `ps` one after another. -/
def insertAll (v : Vertex) (ps : List Nat) : Vertex :=
  ps.foldl (fun vertex p => insert vertex (p : Int)) v

/-- Specification side of C7: the sequence obtained from `ps` by keeping only the
first occurrence of each position. -/
def firstOccurrences : List Nat → List Nat
  | [] => []
  | p :: ps => p :: (firstOccurrences ps).filter (fun q => decide (q ≠ p))

/-- Function `Graph_AddVertex` called for each pair `(key, index)` of the list in
order; `none` when one of the calls fails its assertion. -/
def addVertices (g : Graph) : List (Int × Nat) → Option Graph
  | [] => some g
  | kd :: rest => (Graph_AddVertex g kd.1 kd.2).bind fun g1 => addVertices g1 rest

/-- Vertices in use after registering the pairs of `kds` in a fresh graph. -/
def registered (kds : List (Int × Nat)) : List Vertex :=
  kds.map fun kd => ⟨⟨kd.1, kd.2⟩, [], []⟩

/-! ## The driver program -/

/-- Constant `MAX_DATA` of the driver. -/
def MAX_DATA : Nat := 10

/-- Calls of `Graph_AddVertex` made by the second loop of `main`: for each `i` in
`[0, MAX_DATA)` the key `data[ i ].val`, which the first loop set to `i + 1`, with
the data index `i`. -/
def main_vertices : List (Int × Nat) :=
  (List.range MAX_DATA).map fun (i : Nat) => ((i : Int) + 1, i)

/-- Key pairs of the calls of `Graph_AddEdge` in `main`, in program order. -/
def main_edges : List (Int × Int) :=
  [(1, 2), (2, 6), (4, 5), (5, 1), (5, 8), (6, 7), (6, 9), (7, 3), (7, 10), (8, 4), (9, 8)]

/-- Function `Graph_AddEdge` called for each key pair of the list in order; the
result holds the returned values in call order and the graph afterwards, `none`
when a call fails its assertion. -/
def addEdges (g : Graph) : List (Int × Int) → Option (List Bool × Graph)
  | [] => some ([], g)
  | e :: rest =>
    (Graph_AddEdge g e.1 e.2).bind fun r =>
      (addEdges r.2 rest).map fun rs => (r.1 :: rs.1, rs.2)

/-- Graph built by `main` before it is printed, with the values returned by the
calls of `Graph_AddEdge`. -/
def main_build : Option (List Bool × Graph) :=
  (Graph_New MAX_DATA eGraphType.DIRECTED).bind fun g =>
    (addVertices g main_vertices).bind fun g1 => addEdges g1 main_edges

/-- The graph that `main` has built when it calls `Graph_Print`, written out. -/
def main_final : Graph :=
  { vertices :=
      [⟨⟨1, 0⟩, [1], []⟩, ⟨⟨2, 1⟩, [5], []⟩, ⟨⟨3, 2⟩, [], []⟩, ⟨⟨4, 3⟩, [4], []⟩,
       ⟨⟨5, 4⟩, [7, 0], []⟩, ⟨⟨6, 5⟩, [8, 6], []⟩, ⟨⟨7, 6⟩, [9, 2], []⟩, ⟨⟨8, 7⟩, [3], []⟩,
       ⟨⟨9, 8⟩, [7], []⟩, ⟨⟨10, 9⟩, [], []⟩]
    size := 10
    len := 10
    type := eGraphType.DIRECTED }

/-- Indices read by the traversal loop over the vertex that
`Graph_GetVertexByKey` finds for `key`. -/
def traverseKey (g : Graph) (key : Int) : Option (List Nat) :=
  (Graph_GetVertexByKey g key).bind fun p =>
    traverse ((g.slot p).neighbors.length + 1) (g.slot p)

/-- Keys of the vertices at the given positions. -/
def keysAt (g : Graph) (positions : List Nat) : List Int :=
  positions.map fun p => (g.slot p).map.key

/-! ## Allocation and release of nodes -/

/-- Number of calls of `calloc` made by `insert( vertex, index )`: one when the
index is not yet in the neighbour list, none otherwise. -/
def insert_allocs (vertex : Vertex) (index : Int) : Nat :=
  if find_index_in_vertex vertex index = false then 1 else 0

/-- Number of nodes allocated by one call `Graph_AddEdge( g, start, finish )`,
following its two calls of `insert`. -/
def Graph_AddEdge_allocs (g : Graph) (start finish : Int) : Nat :=
  if 0 < g.len then
    let start_idx := find g.vertices g.size start
    let finish_idx := find g.vertices g.size finish
    if start_idx = -1 ∨ finish_idx = -1 then 0
    else if start_idx < 0 then 0
    else
      let g1 : Graph :=
        { g with vertices :=
            g.vertices.set start_idx.toNat (insert (g.slot start_idx.toNat) finish_idx) }
      insert_allocs (g.slot start_idx.toNat) finish_idx +
        (if g1.type = eGraphType.UNDIRECTED then
          (if finish_idx < 0 then 0 else insert_allocs (g1.slot finish_idx.toNat) start_idx)
        else 0)
  else 0

/-- Number of nodes allocated by one call of the building interface. -/
def Call.allocs (g : Graph) : Call → Nat
  | .addVertex _ _ => 0
  | .addEdge start finish => Graph_AddEdge_allocs g start finish

/-- Effect of a sequence of calls together with the number of nodes allocated
along it; `none` at the first failed assertion. -/
def runAllocs (g : Graph) : List Call → Option (Nat × Graph)
  | [] => some (0, g)
  | c :: cs =>
    (c.run g).bind fun g1 => (runAllocs g1 cs).map fun r => (c.allocs g + r.1, r.2)

/-- Inner loop of `Graph_Delete` over one neighbour list: the number of nodes it
frees. -/
def free_nodes : List Nat → Nat
  | [] => 0
  | _ :: next => 1 + free_nodes next

/-- Outer loop of `Graph_Delete`: `n` iterations starting at `i`; the number of
nodes freed. -/
def Graph_Delete_loop (vertices : List Vertex) : Nat → Nat → Nat
  | 0, _ => 0
  | n + 1, i =>
    free_nodes (vertices.getD i default).neighbors + Graph_Delete_loop vertices n (i + 1)

/-- Function `Graph_Delete`: asserts that the handle is not null, frees the nodes of
all `size` vertices, the array and the graph record, and sets the handle to null.
The result is the number of nodes freed and the handle afterwards. -/
def Graph_Delete (g : Option Graph) : Option (Nat × Option Graph) :=
  match g with
  | none => none
  | some graph => some (Graph_Delete_loop graph.vertices graph.size 0, none)

/-- Graph after `Graph_New( 2, DIRECTED )`, `Graph_AddVertex( g, 5, 0 )`,
`Graph_AddEdge( g, 0, 5 )` and `Graph_AddVertex( g, 9, 1 )`. -/
def sampleLeak : Graph :=
  ⟨[⟨⟨5, 0⟩, [], []⟩, ⟨⟨9, 1⟩, [], []⟩], 2, 2, eGraphType.DIRECTED⟩

/-! ## Runs that name registered keys only -/

/-- Graphs built by `Graph_New` followed by calls of `Graph_AddVertex` and
`Graph_AddEdge` in which every `Graph_AddEdge` names two keys of vertices in use,
that is, keys that `Graph_GetVertexByKey` finds. -/
inductive ReachableRegistered : Graph → Prop where
  | new (size : Nat) (type : eGraphType) (g : Graph) :
      Graph_New size type = some g → ReachableRegistered g
  | addVertex (g g1 : Graph) (key : Int) (index : Nat) :
      ReachableRegistered g → Graph_AddVertex g key index = some g1 → ReachableRegistered g1
  | addEdge (g g1 : Graph) (start finish : Int) (r : Bool) :
      ReachableRegistered g →
      (Graph_GetVertexByKey g start).isSome = true →
      (Graph_GetVertexByKey g finish).isSome = true →
      Graph_AddEdge g start finish = some (r, g1) → ReachableRegistered g1

/-- Invariant of the runs that name registered keys only: the array is well
formed and, on an undirected graph, unused slots have empty neighbour lists,
every stored index is below `len`, and adjacency is symmetric. -/
def Graph.SymInv (g : Graph) : Prop :=
  g.WF ∧
    (g.type = eGraphType.UNDIRECTED →
      (∀ i, g.len ≤ i → (g.slot i).neighbors = []) ∧
      (∀ i n, n ∈ (g.slot i).neighbors → n < g.len) ∧
      (∀ i j, j ∈ (g.slot i).neighbors ↔ i ∈ (g.slot j).neighbors))

/-- Undirected graph with keys 1 and 2 after `Graph_AddEdge( g, 1, 2 )`. -/
def sampleC18 : Graph :=
  ⟨[⟨⟨1, 0⟩, [1], []⟩, ⟨⟨2, 1⟩, [0], []⟩], 2, 2, eGraphType.UNDIRECTED⟩

/-! ## The diagnostic print -/

/-- Inner loop of `Graph_Print` (LEVEL 1) over the nodes of one neighbour list:
for each node the text of `printf( " %d ", g->vertices[ node->index ].map.key )`,
at depth above 1 the text of `printf( "(Node:%p) ", node )`, and `"->"`. The
rendering of a node address by `%p` is the parameter `ptr`, given the position of
the vertex and the place `k` of the node in its list. -/
def Graph_Print_nodes (g : Graph) (ptr : Nat → Nat → String) (depth : Int) (i : Nat) :
    List Nat → Nat → String
  | [], _ => ""
  | index :: next, k =>
    " " ++ toString (g.slot index).map.key ++ " " ++
      (if depth > 1 then "(Node:" ++ ptr i k ++ ") " else "") ++ "->" ++
      Graph_Print_nodes g ptr depth i next (k + 1)

/-- Text printed by one iteration of the outer loop of `Graph_Print`, for the
vertex at position `i`; the position and the data index, both `size_t`, are
printed with `%ld`. -/
def Graph_Print_vertex (g : Graph) (ptr : Nat → Nat → String) (depth : Int) (i : Nat) :
    String :=
  "\n=== Vertex[ " ++ toString (long_of_size_t i) ++ " ] ===\n" ++
    ("<map.key:" ++ toString (g.slot i).map.key ++ ", map.data_idx:" ++
      toString (long_of_size_t (g.slot i).map.data_idx) ++ ">\n") ++
    (if (g.slot i).neighbors ≠ [] then "Has neighbors\n" else "Has no neighbors\n") ++
    (if depth > 0 then
      Graph_Print_nodes g ptr depth i (g.slot i).neighbors 0 ++
        (if (g.slot i).neighbors ≠ [] then " Nil\n" else "")
    else "")

/-- Outer loop of `Graph_Print`: `n` iterations starting at position `i`. -/
def Graph_Print_loop (g : Graph) (ptr : Nat → Nat → String) (depth : Int) :
    Nat → Nat → String
  | 0, _ => ""
  | n + 1, i => Graph_Print_vertex g ptr depth i ++ Graph_Print_loop g ptr depth n (i + 1)

/-- Function `Graph_Print`, as the text it writes: the blocks of the vertices at
positions `[0, len)` and a final newline. A stored index is looked up with
`Graph.slot`; the statements about the text are made for graphs whose stored
indices are inside the array. -/
def Graph_Print (g : Graph) (ptr : Nat → Nat → String) (depth : Int) : String :=
  Graph_Print_loop g ptr depth g.len 0 ++ "\n"

/-- Specification side of C20: a line of text, closed by a newline. -/
def printedLine (s : String) : String := s ++ "\n"

/-- Specification side of C20: concatenation of texts in order. -/
def concatText (parts : List String) : String := parts.foldr (fun s r => s ++ r) ""

/-- Specification side of C20: the text of one neighbour node: the key of the
vertex at the stored position, at depth above 1 the identifier of the node, and
`->`. The argument pairs the place of the node in its list with the stored
position. -/
def printedNode (g : Graph) (ptr : Nat → Nat → String) (depth : Int) (i : Nat)
    (node : Nat × Nat) : String :=
  " " ++ toString (g.slot node.2).map.key ++ " " ++
    (if depth > 1 then "(Node:" ++ ptr i node.1 ++ ") " else "") ++ "->"

/-- Specification side of C20: the line listing the neighbour nodes in list order
and ending with `Nil`. -/
def printedNeighborLine (g : Graph) (ptr : Nat → Nat → String) (depth : Int) (i : Nat)
    (positions : List Nat) : String :=
  printedLine
    (concatText ((positions.enumFrom 0).map (printedNode g ptr depth i)) ++ " Nil")

/-- Specification side of C20: the block of the vertex at position `i`: an empty
line, the header line with the position in decimal, the map line with the key and
the data index in decimal, the line telling whether it has neighbours and, at a
depth above 0 with a non-empty list, the neighbour line. -/
def printedVertex (g : Graph) (ptr : Nat → Nat → String) (depth : Int) (i : Nat) : String :=
  printedLine "" ++
    printedLine ("=== Vertex[ " ++ toString i ++ " ] ===") ++
    printedLine ("<map.key:" ++ toString (g.slot i).map.key ++ ", map.data_idx:" ++
      toString (g.slot i).map.data_idx ++ ">") ++
    printedLine (if (g.slot i).neighbors ≠ [] then "Has neighbors" else "Has no neighbors") ++
    (if 0 < depth ∧ (g.slot i).neighbors ≠ [] then
      printedNeighborLine g ptr depth i (g.slot i).neighbors
     else "")

/-- Specification side of C20: the blocks of the positions `0, ..., len - 1` in
increasing order, and a closing empty line. -/
def printedGraph (g : Graph) (ptr : Nat → Nat → String) (depth : Int) : String :=
  concatText ((List.range g.len).map (printedVertex g ptr depth)) ++ printedLine ""

/-- Graph after `Graph_New( 1, DIRECTED )` and `Graph_AddVertex( g, 1, SIZE_MAX )`. -/
def sampleWideIndex : Graph :=
  ⟨[⟨⟨1, 18446744073709551615⟩, [], []⟩], 1, 1, eGraphType.DIRECTED⟩

/-! ## A graph with a vertex at a position above `INT_MAX` -/

/-- Calls of `Graph_AddVertex` that put key 7 at the positions `[0, n)` and key 9 at
position `n`. -/
def wideTable (n : Nat) : List (Int × Nat) :=
  List.replicate n (7, 0) ++ [(9, 1)]

/-- The directed graph of capacity `n + 1` after the calls of `wideTable n`: key 7
is found at position 0 and key 9 at position `n`. -/
def wideGraph (n : Nat) : Graph :=
  { vertices := registered (wideTable n)
    size := n + 1
    len := n + 1
    type := eGraphType.DIRECTED }

/-! ## Reading and writing the vertex array -/

theorem slot_set (vs : List Vertex) (i j : Nat) (v : Vertex) :
    (vs.set i v).getD j default = if i = j ∧ i < vs.length then v else vs.getD j default := by
  simp only [List.getD_eq_getElem?_getD, List.getElem?_set]
  by_cases hij : i = j
  · subst hij
    by_cases hlt : i < vs.length
    · simp [hlt]
    · simp [hlt, List.getElem?_eq_none (Nat.le_of_not_lt hlt)]
  · simp [hij]

theorem set_slot_self (vs : List Vertex) (i : Nat) :
    vs.set i (vs.getD i default) = vs := by
  induction vs generalizing i with
  | nil => rfl
  | cons v vs ih =>
    cases i with
    | zero => rfl
    | succ i =>
      have h := ih i
      simp only [List.getD_eq_getElem?_getD, List.getElem?_cons_succ, List.set_cons_succ] at h ⊢
      rw [h]

theorem mem_iff_slot (vs : List Vertex) (v : Vertex) :
    v ∈ vs ↔ ∃ i, i < vs.length ∧ vs.getD i default = v := by
  constructor
  · intro h
    obtain ⟨i, hi, rfl⟩ := List.getElem_of_mem h
    exact ⟨i, hi, List.getD_eq_getElem _ _ hi⟩
  · rintro ⟨i, hi, rfl⟩
    rw [List.getD_eq_getElem _ _ hi]
    exact List.getElem_mem hi

/-! ## The search loops -/

theorem key_loop_some (vs : List Vertex) (key : Int) (n i p : Nat) :
    key_loop vs key n i = some p ↔
      i ≤ p ∧ p < i + n ∧ (vs.getD p default).map.key = key ∧
        ∀ j, i ≤ j → j < p → (vs.getD j default).map.key ≠ key := by
  induction n generalizing i with
  | zero =>
    simp only [key_loop]
    constructor
    · intro h; cases h
    · rintro ⟨h1, h2, -⟩; omega
  | succ n ih =>
    simp only [key_loop]
    by_cases hk : (vs.getD i default).map.key = key
    · simp only [hk, if_true, Option.some.injEq]
      constructor
      · rintro rfl
        exact ⟨le_refl _, by omega, hk, fun j h1 h2 => by omega⟩
      · rintro ⟨h1, -, -, h4⟩
        by_contra hne
        exact h4 i (le_refl _) (by omega) hk
    · simp only [hk, if_false, ih]
      constructor
      · rintro ⟨h1, h2, h3, h4⟩
        refine ⟨by omega, by omega, h3, fun j hj1 hj2 => ?_⟩
        by_cases hji : j = i
        · subst hji; exact hk
        · exact h4 j (by omega) hj2
      · rintro ⟨h1, h2, h3, h4⟩
        have hpi : p ≠ i := by rintro rfl; exact hk h3
        exact ⟨by omega, by omega, h3, fun j hj1 hj2 => h4 j (by omega) hj2⟩

theorem key_loop_none (vs : List Vertex) (key : Int) (n i : Nat) :
    key_loop vs key n i = none ↔
      ∀ j, i ≤ j → j < i + n → (vs.getD j default).map.key ≠ key := by
  induction n generalizing i with
  | zero =>
    simp only [key_loop, true_iff]
    intro j h1 h2; omega
  | succ n ih =>
    simp only [key_loop]
    by_cases hk : (vs.getD i default).map.key = key
    · simp only [hk, if_true]
      constructor
      · intro h; cases h
      · intro h; exact absurd hk (h i (le_refl _) (by omega))
    · simp only [hk, if_false, ih]
      constructor
      · intro h j hj1 hj2
        by_cases hji : j = i
        · subst hji; exact hk
        · exact h j (by omega) (by omega)
      · intro h j hj1 hj2
        exact h j (by omega) (by omega)

theorem int_of_size_t_of_lt (p : Nat) (h : p < 2147483648) : int_of_size_t p = (p : Int) := by
  unfold int_of_size_t
  omega

theorem int_of_size_t_toNat_le (p : Nat) (h : 0 ≤ int_of_size_t p) :
    (int_of_size_t p).toNat ≤ p := by
  unfold int_of_size_t at h ⊢
  omega

theorem size_t_of_int_nonneg (x : Int) (h : 0 ≤ x) : size_t_of_int x = x.toNat := by
  unfold size_t_of_int
  rw [if_pos h]

theorem size_t_of_int_natCast (p : Nat) : size_t_of_int (p : Int) = p := by
  rw [size_t_of_int_nonneg _ (Int.ofNat_nonneg p), Int.toNat_ofNat]

theorem find_loop_eq (vs : List Vertex) (key : Int) (n i : Nat) :
    find_loop vs key n i =
      match key_loop vs key n i with
      | some p => int_of_size_t p
      | none => -1 := by
  induction n generalizing i with
  | zero => simp [find_loop, key_loop]
  | succ n ih =>
    simp only [find_loop, key_loop]
    by_cases hk : (vs.getD i default).map.key = key
    · rw [if_pos hk, if_pos hk]
    · rw [if_neg hk, if_neg hk]; exact ih (i + 1)

theorem key_loop_mono (vs : List Vertex) (key : Int) (n m i p : Nat) (hnm : n ≤ m)
    (h : key_loop vs key n i = some p) : key_loop vs key m i = some p := by
  rw [key_loop_some] at h ⊢
  exact ⟨h.1, by omega, h.2.2.1, h.2.2.2⟩

theorem find_of_key_loop (vs : List Vertex) (key : Int) (len size p : Nat) (hle : len ≤ size)
    (h : key_loop vs key len 0 = some p) : find vs size key = int_of_size_t p := by
  rw [find, find_loop_eq, key_loop_mono vs key len size 0 p hle h]

theorem find_of_absent (vs : List Vertex) (key : Int) (size : Nat)
    (h : ∀ j, j < size → (vs.getD j default).map.key ≠ key) : find vs size key = -1 := by
  have hk : key_loop vs key size 0 = none :=
    (key_loop_none vs key size 0).2 fun j _ hj => h j (by omega)
  rw [find, find_loop_eq, hk]

theorem find_cases (vs : List Vertex) (key : Int) (size : Nat) :
    find vs size key = -1 ∨
      ∃ p, p < size ∧ find vs size key = int_of_size_t p ∧
        (vs.getD p default).map.key = key := by
  rw [find, find_loop_eq]
  cases hk : key_loop vs key size 0 with
  | none => exact Or.inl rfl
  | some p =>
    rw [key_loop_some] at hk
    exact Or.inr ⟨p, by omega, rfl, hk.2.2.1⟩

/-! ## Insertion into a neighbour list -/

theorem find_index_in_nodes_stored (l : List Nat) (index : Int) :
    find_index_in_nodes l index = true ↔ size_t_of_int index ∈ l := by
  induction l with
  | nil => simp [find_index_in_nodes]
  | cons n l ih =>
    simp only [find_index_in_nodes, List.mem_cons]
    by_cases hn : n = size_t_of_int index
    · simp [hn]
    · have : ¬ size_t_of_int index = n := fun h => hn h.symm
      simp [hn, this, ih]

theorem find_index_in_nodes_iff (l : List Nat) (p : Nat) :
    find_index_in_nodes l (p : Int) = true ↔ p ∈ l := by
  rw [find_index_in_nodes_stored, size_t_of_int_natCast]

theorem insert_stored (v : Vertex) (index : Int) :
    (insert v index).neighbors =
      if size_t_of_int index ∈ v.neighbors then v.neighbors
      else size_t_of_int index :: v.neighbors := by
  unfold insert find_index_in_vertex
  by_cases hp : size_t_of_int index ∈ v.neighbors
  · have h := (find_index_in_nodes_stored v.neighbors index).2 hp
    simp [h, hp]
  · have h : find_index_in_nodes v.neighbors index = false := by
      cases hc : find_index_in_nodes v.neighbors index with
      | false => rfl
      | true => exact absurd ((find_index_in_nodes_stored v.neighbors index).1 hc) hp
    simp [h, hp]

theorem insert_eq_natCast (v : Vertex) (index : Int) :
    insert v index = insert v ((size_t_of_int index : Nat) : Int) := by
  have h : find_index_in_nodes v.neighbors index =
      find_index_in_nodes v.neighbors ((size_t_of_int index : Nat) : Int) := by
    rw [Bool.eq_iff_iff, find_index_in_nodes_stored, find_index_in_nodes_stored,
      size_t_of_int_natCast]
  unfold insert find_index_in_vertex
  rw [h, size_t_of_int_natCast]

theorem insert_neighbors (v : Vertex) (p : Nat) :
    (insert v (p : Int)).neighbors = if p ∈ v.neighbors then v.neighbors else p :: v.neighbors := by
  rw [insert_stored, size_t_of_int_natCast]

theorem insert_map (v : Vertex) (index : Int) : (insert v index).map = v.map := by
  unfold insert
  split <;> rfl

theorem insert_cursor (v : Vertex) (index : Int) : (insert v index).cursor = v.cursor := by
  unfold insert
  split <;> rfl

theorem insert_of_mem (v : Vertex) (p : Nat) (hp : p ∈ v.neighbors) :
    insert v (p : Int) = v := by
  unfold insert find_index_in_vertex
  simp [(find_index_in_nodes_iff v.neighbors p).2 hp]

theorem mem_insert_neighbors (v : Vertex) (p q : Nat) :
    q ∈ (insert v (p : Int)).neighbors ↔ q = p ∨ q ∈ v.neighbors := by
  rw [insert_neighbors]
  by_cases hp : p ∈ v.neighbors
  · simp only [hp, if_true]
    constructor
    · exact Or.inr
    · rintro (rfl | h)
      · exact hp
      · exact h
  · simp [hp]

theorem insert_nodup (v : Vertex) (p : Nat) (h : v.neighbors.Nodup) :
    (insert v (p : Int)).neighbors.Nodup := by
  rw [insert_neighbors]
  by_cases hp : p ∈ v.neighbors
  · simpa [hp] using h
  · simpa [hp] using And.intro hp h

theorem edgeStep_length (vs : List Vertex) (i j : Nat) :
    (edgeStep vs i j).length = vs.length := by
  simp [edgeStep]

theorem edgeStep_slot (vs : List Vertex) (i j k : Nat) (hi : i < vs.length) :
    (edgeStep vs i j).getD k default =
      if i = k then insert (vs.getD k default) (j : Int) else vs.getD k default := by
  unfold edgeStep
  rw [slot_set]
  by_cases hik : i = k
  · subst hik; simp [hi]
  · simp [hik]

theorem edgeStep_key (vs : List Vertex) (i j k : Nat) :
    ((edgeStep vs i j).getD k default).map = (vs.getD k default).map := by
  unfold edgeStep
  rw [slot_set]
  split
  · next h => rw [insert_map, h.1]
  · rfl

theorem key_loop_edgeStep (vs : List Vertex) (i j : Nat) (key : Int) (n m : Nat) :
    key_loop (edgeStep vs i j) key n m = key_loop vs key n m := by
  induction n generalizing m with
  | zero => rfl
  | succ n ih => simp only [key_loop, edgeStep_key, ih]

theorem find_edgeStep (vs : List Vertex) (i j : Nat) (key : Int) (size : Nat) :
    find (edgeStep vs i j) size key = find vs size key := by
  rw [find, find, find_loop_eq, find_loop_eq, key_loop_edgeStep]

theorem AddEdge_eq (g : Graph) (start finish : Int) (hlen : 0 < g.len) :
    Graph_AddEdge g start finish =
      if find g.vertices g.size start = -1 ∨ find g.vertices g.size finish = -1 then
        some (false, g)
      else if find g.vertices g.size start < 0 then none
      else if g.type = eGraphType.UNDIRECTED ∧ find g.vertices g.size finish < 0 then none
      else
        some (true,
          { g with
            vertices := edgeVertices g (find g.vertices g.size start).toNat
              (size_t_of_int (find g.vertices g.size finish)) }) := by
  unfold Graph_AddEdge
  simp only [hlen, if_true]
  by_cases h1 : find g.vertices g.size start = -1 ∨ find g.vertices g.size finish = -1
  · rw [if_pos h1, if_pos h1]
  · rw [if_neg h1, if_neg h1]
    by_cases h2 : find g.vertices g.size start < 0
    · rw [if_pos h2, if_pos h2]
    · rw [if_neg h2, if_neg h2]
      have h2n : 0 ≤ find g.vertices g.size start := Int.not_lt.1 h2
      have hs : ((find g.vertices g.size start).toNat : Int) = find g.vertices g.size start :=
        Int.toNat_of_nonneg h2n
      by_cases ht : g.type = eGraphType.UNDIRECTED
      · by_cases h3 : find g.vertices g.size finish < 0
        · simp only [ht, h3, if_true, and_self]
        · have h3n : 0 ≤ find g.vertices g.size finish := Int.not_lt.1 h3
          simp only [ht, h3, if_true, if_false, and_false, edgeVertices, edgeStep, Graph.slot,
            size_t_of_int_nonneg _ h3n, Int.toNat_of_nonneg h3n, hs]
      · simp only [ht, if_false, false_and, edgeVertices, edgeStep, Graph.slot]
        rw [← insert_eq_natCast]

theorem AddEdge_found (g : Graph) (start finish : Int) (ps pf : Nat) (hlen : 0 < g.len)
    (hs : find g.vertices g.size start = (ps : Int))
    (hf : find g.vertices g.size finish = (pf : Int)) :
    Graph_AddEdge g start finish = some (true, { g with vertices := edgeVertices g ps pf }) := by
  have h1 : ¬ ((ps : Int) = -1 ∨ (pf : Int) = -1) := by omega
  have h2 : ¬ (ps : Int) < 0 := by omega
  have h3 : ¬ (g.type = eGraphType.UNDIRECTED ∧ (pf : Int) < 0) := fun h => by omega
  rw [AddEdge_eq g start finish hlen, hs, hf, if_neg h1, if_neg h2, if_neg h3,
    Int.toNat_ofNat, size_t_of_int_natCast]

theorem AddEdge_missing (g : Graph) (start finish : Int) (hlen : 0 < g.len)
    (h : find g.vertices g.size start = -1 ∨ find g.vertices g.size finish = -1) :
    Graph_AddEdge g start finish = some (false, g) := by
  rw [AddEdge_eq g start finish hlen, if_pos h]

theorem AddEdge_cases (g g1 : Graph) (start finish : Int) (r : Bool)
    (h : Graph_AddEdge g start finish = some (r, g1)) :
    (r = false ∧ g1 = g ∧
        (find g.vertices g.size start = -1 ∨ find g.vertices g.size finish = -1)) ∨
      ∃ p q, p < g.size ∧ q < g.size ∧
        find g.vertices g.size start = int_of_size_t p ∧
        find g.vertices g.size finish = int_of_size_t q ∧
        0 ≤ int_of_size_t p ∧
        (g.type = eGraphType.UNDIRECTED → 0 ≤ int_of_size_t q) ∧ r = true ∧
        g1 = { g with
          vertices := edgeVertices g (int_of_size_t p).toNat
            (size_t_of_int (int_of_size_t q)) } := by
  have hlen : 0 < g.len := by
    by_contra hc
    simp [Graph_AddEdge, hc] at h
  rw [AddEdge_eq g start finish hlen] at h
  by_cases h1 : find g.vertices g.size start = -1 ∨ find g.vertices g.size finish = -1
  · rw [if_pos h1] at h
    simp only [Option.some.injEq, Prod.mk.injEq] at h
    exact Or.inl ⟨h.1.symm, h.2.symm, h1⟩
  · rw [if_neg h1] at h
    by_cases h2 : find g.vertices g.size start < 0
    · rw [if_pos h2] at h; cases h
    · rw [if_neg h2] at h
      by_cases h3 : g.type = eGraphType.UNDIRECTED ∧ find g.vertices g.size finish < 0
      · rw [if_pos h3] at h; cases h
      · rw [if_neg h3] at h
        simp only [Option.some.injEq, Prod.mk.injEq] at h
        rcases find_cases g.vertices start g.size with hs | ⟨p, hp, hs, -⟩
        · exact absurd (Or.inl hs) h1
        · rcases find_cases g.vertices finish g.size with hf | ⟨q, hq, hf, -⟩
          · exact absurd (Or.inr hf) h1
          · refine Or.inr ⟨p, q, hp, hq, hs, hf, ?_, ?_, h.1.symm, ?_⟩
            · rw [← hs]; exact Int.not_lt.1 h2
            · intro ht
              rw [← hf]
              exact Int.not_lt.1 fun hlt => h3 ⟨ht, hlt⟩
            · rw [← hs, ← hf]; exact h.2.symm

theorem edgeVertices_length (g : Graph) (ps pf : Nat) :
    (edgeVertices g ps pf).length = g.vertices.length := by
  unfold edgeVertices
  split <;> simp [edgeStep_length]

/-! ## Invariants of the graphs the interface builds -/

theorem replicate_slot (m i : Nat) :
    (List.replicate m Vertex.zero).getD i default = Vertex.zero := by
  by_cases hlt : i < m
  · simp [List.getD_eq_getElem?_getD, List.getElem?_replicate, hlt]
  · simp [List.getD_eq_getElem?_getD, List.getElem?_replicate, hlt]
    rfl

theorem replicate_set_zero (m i : Nat) :
    (List.replicate m Vertex.zero).set i
        { map := ⟨0, 0⟩, neighbors := [],
          cursor := ((List.replicate m Vertex.zero).getD i default).cursor } =
      List.replicate m Vertex.zero := by
  have h : (List.replicate m Vertex.zero).set i
        { map := ⟨0, 0⟩, neighbors := [],
          cursor := ((List.replicate m Vertex.zero).getD i default).cursor } =
      (List.replicate m Vertex.zero).set i ((List.replicate m Vertex.zero).getD i default) := by
    rw [replicate_slot]; rfl
  rw [h, set_slot_self]

theorem Graph_New_loop_replicate (n i m : Nat) :
    Graph_New_loop n i (List.replicate m Vertex.zero) = List.replicate m Vertex.zero := by
  induction n generalizing i with
  | zero => rfl
  | succ n ih => rw [Graph_New_loop, replicate_set_zero, ih]

theorem Graph_New_eq (size : Nat) (type : eGraphType) :
    Graph_New size type =
      if 0 < size then
        some { vertices := List.replicate size Vertex.zero, size := size, len := 0, type := type }
      else none := by
  unfold Graph_New
  rw [Graph_New_loop_replicate]

theorem edgeStep_nodup (vs : List Vertex) (i j : Nat)
    (h : ∀ k, (vs.getD k default).neighbors.Nodup) (k : Nat) :
    ((edgeStep vs i j).getD k default).neighbors.Nodup := by
  unfold edgeStep
  rw [slot_set]
  split
  · exact insert_nodup _ _ (h i)
  · exact h k

theorem edgeVertices_nodup (g : Graph) (ps pf : Nat)
    (h : ∀ k, (g.vertices.getD k default).neighbors.Nodup) (k : Nat) :
    ((edgeVertices g ps pf).getD k default).neighbors.Nodup := by
  unfold edgeVertices
  split
  · exact edgeStep_nodup _ _ _ (edgeStep_nodup _ _ _ h) k
  · exact edgeStep_nodup _ _ _ h k

theorem Inv_new (size : Nat) (type : eGraphType) (g : Graph)
    (h : Graph_New size type = some g) : g.Inv := by
  rw [Graph_New_eq] at h
  split at h
  · cases h
    refine ⟨⟨by simp, Nat.zero_le _⟩, fun i => ?_⟩
    show ((List.replicate size Vertex.zero).getD i default).neighbors.Nodup
    rw [replicate_slot]
    exact List.nodup_nil
  · cases h

theorem Inv_addVertex (g g1 : Graph) (key : Int) (index : Nat) (hg : g.Inv)
    (h : Graph_AddVertex g key index = some g1) : g1.Inv := by
  unfold Graph_AddVertex at h
  split at h
  · next hlt =>
    cases h
    refine ⟨⟨by simpa using hg.1.1, hlt⟩, fun i => ?_⟩
    simp only [Graph.slot]
    rw [slot_set]
    split
    · exact List.nodup_nil
    · exact hg.2 i
  · cases h

theorem Inv_addEdge (g g1 : Graph) (start finish : Int) (r : Bool) (hg : g.Inv)
    (h : Graph_AddEdge g start finish = some (r, g1)) : g1.Inv := by
  rcases AddEdge_cases g g1 start finish r h with
    ⟨-, rfl, -⟩ | ⟨p, q, -, -, -, -, -, -, -, rfl⟩
  · exact hg
  · refine ⟨⟨?_, hg.1.2⟩, fun i => ?_⟩
    · simpa [edgeVertices_length] using hg.1.1
    · exact edgeVertices_nodup g _ _ hg.2 i

theorem Reachable.inv (g : Graph) (h : Reachable g) : g.Inv := by
  induction h with
  | new size type g h => exact Inv_new size type g h
  | addVertex g g1 key index _ h ih => exact Inv_addVertex g g1 key index ih h
  | addEdge g g1 start finish r _ h ih => exact Inv_addEdge g g1 start finish r ih h

/-! ## Effect of an edge insertion on the neighbour lists -/

theorem edgeStep_mem (vs : List Vertex) (i j : Nat) (hi : i < vs.length) :
    j ∈ ((edgeStep vs i j).getD i default).neighbors := by
  rw [edgeStep_slot vs i j i hi, if_pos rfl, mem_insert_neighbors]
  exact Or.inl rfl

theorem edgeStep_mem_mono (vs : List Vertex) (i j k q : Nat)
    (h : q ∈ (vs.getD k default).neighbors) :
    q ∈ ((edgeStep vs i j).getD k default).neighbors := by
  unfold edgeStep
  rw [slot_set]
  split
  · next hik =>
    rw [mem_insert_neighbors, hik.1]
    exact Or.inr h
  · exact h

theorem edgeStep_of_mem (vs : List Vertex) (i j : Nat)
    (h : j ∈ (vs.getD i default).neighbors) : edgeStep vs i j = vs := by
  unfold edgeStep
  rw [insert_of_mem _ _ h, set_slot_self]

theorem edgeVertices_mem (g : Graph) (ps pf : Nat) (hps : ps < g.vertices.length) :
    pf ∈ ((edgeVertices g ps pf).getD ps default).neighbors := by
  unfold edgeVertices
  split
  · exact edgeStep_mem_mono _ _ _ _ _ (edgeStep_mem _ _ _ hps)
  · exact edgeStep_mem _ _ _ hps

theorem edgeVertices_mem_back (g : Graph) (ps pf : Nat) (hpf : pf < g.vertices.length)
    (ht : g.type = eGraphType.UNDIRECTED) :
    ps ∈ ((edgeVertices g ps pf).getD pf default).neighbors := by
  unfold edgeVertices
  rw [if_pos ht]
  exact edgeStep_mem _ _ _ (by rw [edgeStep_length]; exact hpf)

theorem find_edgeVertices (g : Graph) (ps pf : Nat) (key : Int) (size : Nat) :
    find (edgeVertices g ps pf) size key = find g.vertices size key := by
  unfold edgeVertices
  split
  · rw [find_edgeStep, find_edgeStep]
  · rw [find_edgeStep]

theorem edgeVertices_again (g : Graph) (ps pf : Nat) (hps : ps < g.vertices.length)
    (hpf : pf < g.vertices.length) :
    edgeVertices { g with vertices := edgeVertices g ps pf } ps pf = edgeVertices g ps pf := by
  have h1 := edgeVertices_mem g ps pf hps
  by_cases ht : g.type = eGraphType.UNDIRECTED
  · have h2 := edgeVertices_mem_back g ps pf hpf ht
    show (if g.type = eGraphType.UNDIRECTED then
        edgeStep (edgeStep (edgeVertices g ps pf) ps pf) pf ps
      else edgeStep (edgeVertices g ps pf) ps pf) = edgeVertices g ps pf
    rw [if_pos ht, edgeStep_of_mem _ _ _ h1, edgeStep_of_mem _ _ _ h2]
  · show (if g.type = eGraphType.UNDIRECTED then
        edgeStep (edgeStep (edgeVertices g ps pf) ps pf) pf ps
      else edgeStep (edgeVertices g ps pf) ps pf) = edgeVertices g ps pf
    rw [if_neg ht, edgeStep_of_mem _ _ _ h1]

theorem registered_position (g : Graph) (hwf : g.WF) (key : Int) (p : Nat)
    (h : Graph_GetVertexByKey g key = some p) :
    p < g.len ∧ p < g.vertices.length ∧ find g.vertices g.size key = int_of_size_t p := by
  have h1 := (key_loop_some g.vertices key g.len 0 p).1 h
  refine ⟨by omega, ?_, find_of_key_loop g.vertices key g.len g.size p hwf.2 h⟩
  have := hwf.1
  have := hwf.2
  omega

/-- C1 (amended): in a graph built through the interface with `len > 0`, when
`Graph_GetVertexByKey` finds keys `a` and `b` at positions `pa` and `pb` that are
both below `2^31`, so that they fit the `int` returned by `find`,
`Graph_AddEdge(g, a, b)` returns true and afterwards `pb` occurs exactly once in
the neighbour list of the vertex at `pa`; a second `Graph_AddEdge(g, a, b)` also
returns true and leaves the graph, hence every neighbour list, as it was after
the first call. -/
theorem C1_AddEdge_existing_keys_idempotent (g : Graph) (hr : Reachable g) (hlen : 0 < g.len)
    (a b : Int) (pa pb : Nat)
    (ha : Graph_GetVertexByKey g a = some pa) (hb : Graph_GetVertexByKey g b = some pb)
    (hia : pa < 2147483648) (hib : pb < 2147483648) :
    ∃ g1 g2, Graph_AddEdge g a b = some (true, g1) ∧
      (g1.slot pa).neighbors.count pb = 1 ∧
      Graph_AddEdge g1 a b = some (true, g2) ∧
      ∀ i, (g2.slot i).neighbors = (g1.slot i).neighbors := by
  have hinv := hr.inv g
  obtain ⟨-, hpa, hfa⟩ := registered_position g hinv.1 a pa ha
  obtain ⟨-, hpb, hfb⟩ := registered_position g hinv.1 b pb hb
  rw [int_of_size_t_of_lt pa hia] at hfa
  rw [int_of_size_t_of_lt pb hib] at hfb
  have h1 := AddEdge_found g a b pa pb hlen hfa hfb
  have hinv1 := Inv_addEdge g _ a b true hinv h1
  refine ⟨{ g with vertices := edgeVertices g pa pb }, { g with vertices := edgeVertices g pa pb },
    h1, ?_, ?_, fun _ => rfl⟩
  · exact List.count_eq_one_of_mem (hinv1.2 pa) (edgeVertices_mem g pa pb hpa)
  · have h2 := AddEdge_found { g with vertices := edgeVertices g pa pb } a b pa pb hlen
      (by rw [find_edgeVertices]; exact hfa) (by rw [find_edgeVertices]; exact hfb)
    rw [h2, edgeVertices_again g pa pb hpa hpb]

theorem Reachable.of_runCalls (g0 g : Graph) (cs : List Call) (h0 : Reachable g0)
    (h : runCalls g0 cs = some g) : Reachable g := by
  induction cs generalizing g0 with
  | nil =>
    simp only [runCalls, Option.some.injEq] at h
    exact h ▸ h0
  | cons c cs ih =>
    simp only [runCalls] at h
    cases hc : c.run g0 with
    | none => rw [hc] at h; cases h
    | some g1 =>
      rw [hc] at h
      refine ih g1 ?_ h
      cases c with
      | addVertex key index => exact Reachable.addVertex g0 g1 key index h0 hc
      | addEdge start finish =>
        simp only [Call.run] at hc
        cases he : Graph_AddEdge g0 start finish with
        | none => rw [he] at hc; cases hc
        | some rg =>
          rw [he] at hc
          simp only [Option.map_some', Option.some.injEq] at hc
          exact Reachable.addEdge g0 g1 start finish rg.1 h0 (by rw [he, ← hc])

theorem Reachable.of_calls (size : Nat) (type : eGraphType) (cs : List Call) (g : Graph)
    (h : (Graph_New size type).bind (fun g0 => runCalls g0 cs) = some g) : Reachable g := by
  cases hn : Graph_New size type with
  | none => rw [hn] at h; cases h
  | some g0 =>
    rw [hn] at h
    exact Reachable.of_runCalls g0 g cs (Reachable.new size type g0 hn) h

/-- Witness of C1 on the undirected graph with keys 1 and 2 and the edge (1, 2). -/
theorem C1_AddEdge_existing_keys_idempotent_witness :
    ∃ g1 g2, Graph_AddEdge sampleC1 1 2 = some (true, g1) ∧
      (g1.slot 0).neighbors.count 1 = 1 ∧
      Graph_AddEdge g1 1 2 = some (true, g2) ∧
      ∀ i, (g2.slot i).neighbors = (g1.slot i).neighbors :=
  C1_AddEdge_existing_keys_idempotent sampleC1
    (Reachable.of_calls 2 eGraphType.UNDIRECTED [Call.addVertex 1 0, Call.addVertex 2 1] sampleC1
      (by decide))
    (by decide) 1 2 0 1 (by decide) (by decide) (by decide) (by decide)

theorem sampleOneOfTwo_reachable : Reachable sampleOneOfTwo :=
  Reachable.of_calls 2 eGraphType.DIRECTED [Call.addVertex 5 0] sampleOneOfTwo (by decide)

/-- C2 (behaviour of the code at the failing input): in the graph built by
`Graph_New( 2, DIRECTED )` and `Graph_AddVertex( g, 5, 0 )` the key 0 is the key of
no vertex in use, yet `Graph_AddEdge( g, 5, 0 )` returns true and puts position 1
into the neighbour list of the vertex at position 0. -/
theorem C2_AddEdge_unregistered_zero_key :
    Reachable sampleOneOfTwo ∧ 0 < sampleOneOfTwo.len ∧
      (∀ i, i < sampleOneOfTwo.len → (sampleOneOfTwo.slot i).map.key ≠ 0) ∧
      Graph_GetVertexByKey sampleOneOfTwo 0 = none ∧
      Graph_AddEdge sampleOneOfTwo 5 0 =
        some (true, { sampleOneOfTwo with
          vertices := [⟨⟨5, 0⟩, [1], []⟩, ⟨⟨0, 0⟩, [], []⟩] }) ∧
      (sampleOneOfTwo.slot 0).neighbors = [] := by
  refine ⟨sampleOneOfTwo_reachable, by decide, ?_, by decide, by decide, by decide⟩
  intro i hi
  have : i = 0 := by
    have h : sampleOneOfTwo.len = 1 := rfl
    omega
  subst this
  decide

/-- C3 (amended): in a well-formed graph where `Graph_GetVertexByKey` finds keys `a`
and `b` at positions `pa` and `pb` that are both below `2^31`, so that they fit the
`int` returned by `find`, `Graph_AddEdge(g, a, b)` returns true and afterwards:
on an UNDIRECTED graph `pb` is in the neighbour list of the vertex at `pa` and
`pa` is in the list of the vertex at `pb`; on a DIRECTED graph `pb` is in the list
of the vertex at `pa` and the list of every other vertex is unchanged. -/
theorem C3_AddEdge_directed_undirected (g : Graph) (hwf : g.WF) (a b : Int) (pa pb : Nat)
    (ha : Graph_GetVertexByKey g a = some pa) (hb : Graph_GetVertexByKey g b = some pb)
    (hia : pa < 2147483648) (hib : pb < 2147483648) :
    ∃ g1, Graph_AddEdge g a b = some (true, g1) ∧
      (g.type = eGraphType.UNDIRECTED →
        pb ∈ (g1.slot pa).neighbors ∧ pa ∈ (g1.slot pb).neighbors) ∧
      (g.type = eGraphType.DIRECTED →
        pb ∈ (g1.slot pa).neighbors ∧
          ∀ i, i ≠ pa → (g1.slot i).neighbors = (g.slot i).neighbors) := by
  obtain ⟨hlen, hpa, hfa⟩ := registered_position g hwf a pa ha
  obtain ⟨-, hpb, hfb⟩ := registered_position g hwf b pb hb
  rw [int_of_size_t_of_lt pa hia] at hfa
  rw [int_of_size_t_of_lt pb hib] at hfb
  refine ⟨{ g with vertices := edgeVertices g pa pb },
    AddEdge_found g a b pa pb (by omega) hfa hfb, ?_, ?_⟩
  · intro ht
    exact ⟨edgeVertices_mem g pa pb hpa, edgeVertices_mem_back g pa pb hpb ht⟩
  · intro ht
    refine ⟨edgeVertices_mem g pa pb hpa, fun i hi => ?_⟩
    have hne : ¬ g.type = eGraphType.UNDIRECTED := by rw [ht]; decide
    show ((edgeVertices g pa pb).getD i default).neighbors = (g.vertices.getD i default).neighbors
    unfold edgeVertices
    rw [if_neg hne, edgeStep_slot _ _ _ _ hpa, if_neg (fun h => hi h.symm)]

/-- Witness of C3 with keys 1 and 2 and the edge (1, 2): on the directed graph
position 1 enters the list at position 0 and the list at position 1 stays empty;
on the undirected graph position 0 also enters the list at position 1. -/
theorem C3_AddEdge_directed_undirected_witness :
    (∃ g1, Graph_AddEdge sampleC3 1 2 = some (true, g1) ∧
      (sampleC3.type = eGraphType.UNDIRECTED →
        1 ∈ (g1.slot 0).neighbors ∧ 0 ∈ (g1.slot 1).neighbors) ∧
      (sampleC3.type = eGraphType.DIRECTED →
        1 ∈ (g1.slot 0).neighbors ∧
          ∀ i, i ≠ 0 → (g1.slot i).neighbors = (sampleC3.slot i).neighbors)) ∧
    (∃ g1, Graph_AddEdge sampleC1 1 2 = some (true, g1) ∧
      (sampleC1.type = eGraphType.UNDIRECTED →
        1 ∈ (g1.slot 0).neighbors ∧ 0 ∈ (g1.slot 1).neighbors) ∧
      (sampleC1.type = eGraphType.DIRECTED →
        1 ∈ (g1.slot 0).neighbors ∧
          ∀ i, i ≠ 0 → (g1.slot i).neighbors = (sampleC1.slot i).neighbors)) :=
  ⟨C3_AddEdge_directed_undirected sampleC3 (by decide) 1 2 0 1 (by decide) (by decide)
      (by decide) (by decide),
    C3_AddEdge_directed_undirected sampleC1 (by decide) 1 2 0 1 (by decide) (by decide)
      (by decide) (by decide)⟩

/-- C4 (behaviour of the code at the failing input): after `Graph_New( 2, DIRECTED )`,
`Graph_AddVertex( g, 5, 0 )` and `Graph_AddEdge( g, 5, 0 )`, which returns true, the
neighbour list of the vertex at position 0 holds the index 1 although `len` is 1. -/
theorem C4_neighbor_index_not_below_len :
    Reachable sampleOneOfTwo ∧
      Graph_AddEdge sampleOneOfTwo 5 0 = some (true, sampleDangling) ∧
      Reachable sampleDangling ∧
      1 ∈ (sampleDangling.slot 0).neighbors ∧ ¬ 1 < sampleDangling.len := by
  refine ⟨sampleOneOfTwo_reachable, by decide, ?_, by decide, by decide⟩
  exact Reachable.addEdge sampleOneOfTwo sampleDangling 5 0 true sampleOneOfTwo_reachable
    (by decide)

/-- C5: in every graph built through the interface, no vertex of the array has a
neighbour list that holds the same index twice. -/
theorem C5_no_duplicate_neighbors (g : Graph) (hr : Reachable g) :
    ∀ v, v ∈ g.vertices → v.neighbors.Nodup := by
  intro v hv
  obtain ⟨i, -, rfl⟩ := (mem_iff_slot g.vertices v).1 hv
  exact (hr.inv g).2 i

/-- Witness of C5 on the undirected self-loop, where both inserts target one list. -/
theorem C5_no_duplicate_neighbors_witness :
    Reachable sampleSelfLoop ∧ (sampleSelfLoop.slot 0).neighbors = [0] ∧
      (sampleSelfLoop.slot 0).neighbors.Nodup :=
  ⟨Reachable.of_calls 1 eGraphType.UNDIRECTED [Call.addVertex 7 0, Call.addEdge 7 7]
      sampleSelfLoop (by decide),
    by decide,
    C5_no_duplicate_neighbors sampleSelfLoop
      (Reachable.of_calls 1 eGraphType.UNDIRECTED [Call.addVertex 7 0, Call.addEdge 7 7]
        sampleSelfLoop (by decide))
      (sampleSelfLoop.slot 0) (by decide)⟩

/-! ## The cursor protocol -/

theorem Vertex_Next_times_cursor (k : Nat) (v : Vertex) (hk : k ≤ v.cursor.length) :
    Vertex_Next_times k v = some { v with cursor := v.cursor.drop k } := by
  induction k generalizing v with
  | zero => simp [Vertex_Next_times]
  | succ k ih =>
    obtain ⟨map, neighbors, cursor⟩ := v
    cases cursor with
    | nil => simp at hk
    | cons c cs =>
      simp only [Vertex_Next_times, Vertex_Next, Option.some_bind]
      rw [ih _ (by simpa using hk)]
      simp

theorem traverse_loop_cursor (v : Vertex) (fuel : Nat) (visited : List Nat)
    (h : v.cursor.length < fuel) :
    traverse_loop fuel v visited = some (visited ++ v.cursor) := by
  obtain ⟨map, neighbors, cursor⟩ := v
  induction cursor generalizing fuel visited with
  | nil =>
    cases fuel with
    | zero => simp at h
    | succ fuel => simp [traverse_loop, Vertex_End]
  | cons c cs ih =>
    cases fuel with
    | zero => simp at h
    | succ fuel =>
      simp only [traverse_loop, Vertex_End, Vertex_Get, Vertex_Next]
      simp only [Bool.false_eq_true, if_false]
      rw [ih fuel (visited ++ [c]) (by simpa using h)]
      simp

/-- C6: for a vertex with neighbour list `L` of length `n`: after `Vertex_Start`
and `k < n` calls of `Vertex_Next` (all of which succeed), `Vertex_End` is false,
`Vertex_Get` returns `L[k]` and `Vertex_Next` succeeds; after `n` calls
`Vertex_End` is true; when `L` is empty `Vertex_End` is true right after
`Vertex_Start`; and the traversal loop terminates (any fuel above `n` suffices)
having read exactly `L` in order. -/
theorem C6_cursor_protocol (v : Vertex) :
    (∀ k (hk : k < v.neighbors.length), ∃ vk,
        Vertex_Next_times k (Vertex_Start v) = some vk ∧ Vertex_End vk = false ∧
          Vertex_Get vk = some v.neighbors[k] ∧ (Vertex_Next vk).isSome = true) ∧
      (∃ vn, Vertex_Next_times v.neighbors.length (Vertex_Start v) = some vn ∧
        Vertex_End vn = true) ∧
      (v.neighbors = [] → Vertex_End (Vertex_Start v) = true) ∧
      (∀ fuel, v.neighbors.length < fuel → traverse fuel v = some v.neighbors) := by
  refine ⟨fun k hk => ?_, ?_, ?_, fun fuel hf => ?_⟩
  · refine ⟨_, Vertex_Next_times_cursor k (Vertex_Start v) (Nat.le_of_lt hk), ?_⟩
    simp only [Vertex_Start, Vertex_End, Vertex_Get, Vertex_Next]
    rw [List.drop_eq_getElem_cons hk]
    simp
  · refine ⟨_, Vertex_Next_times_cursor _ (Vertex_Start v) (le_refl _), ?_⟩
    simp [Vertex_Start, Vertex_End]
  · intro h
    simp [Vertex_Start, Vertex_End, h]
  · rw [traverse, traverse_loop_cursor (Vertex_Start v) fuel [] hf]
    simp [Vertex_Start]

/-- Witness of C6 on a vertex with the neighbour list `[8, 6]`: the state after
one call of `Vertex_Next`, and the whole loop with fuel 3. -/
theorem C6_cursor_protocol_witness :
    (∃ vk, Vertex_Next_times 1 (Vertex_Start sampleVertex) = some vk ∧ Vertex_End vk = false ∧
        Vertex_Get vk = some 6 ∧ (Vertex_Next vk).isSome = true) ∧
      traverse 3 sampleVertex = some [8, 6] :=
  ⟨(C6_cursor_protocol sampleVertex).1 1 (by decide),
    (C6_cursor_protocol sampleVertex).2.2.2 3 (by decide)⟩

/-! ## Order of a neighbour list -/

theorem insertAll_neighbors (ps : List Nat) (v : Vertex) :
    (insertAll v ps).neighbors =
      ((firstOccurrences ps).filter (fun q => decide (q ∉ v.neighbors))).reverse
        ++ v.neighbors := by
  induction ps generalizing v with
  | nil => simp [insertAll, firstOccurrences]
  | cons p ps ih =>
    have hstep : insertAll v (p :: ps) = insertAll (insert v (p : Int)) ps := rfl
    rw [hstep, ih, insert_neighbors]
    by_cases hp : p ∈ v.neighbors
    · simp only [hp, if_true, firstOccurrences, List.filter_cons, not_true_eq_false,
        decide_False, Bool.false_eq_true, if_false, List.filter_filter]
      congr 2
      apply List.filter_congr
      intro q _
      by_cases hq : q ∈ v.neighbors
      · simp [hq]
      · have : q ≠ p := fun h => hq (h ▸ hp)
        simp [hq, this]
    · simp only [hp, if_false, firstOccurrences, List.filter_cons, not_false_eq_true,
        decide_True, if_true, List.filter_filter, List.reverse_cons, List.append_assoc,
        List.singleton_append]
      congr 2
      apply List.filter_congr
      intro q _
      simp only [List.mem_cons, not_or, Bool.decide_and, Bool.and_comm]

/-- C7: inserting the positions `ps` one after another, with `insert`, into a
vertex whose neighbour list is empty gives the reverse of `ps` reduced to the
first occurrence of each position; an insert of a position that is not in the
list puts it at the head, and an insert of a position already in the list leaves
the vertex unchanged. -/
theorem C7_insert_order (ps : List Nat) (v : Vertex) (hv : v.neighbors = []) :
    (insertAll v ps).neighbors = (firstOccurrences ps).reverse ∧
      (∀ (w : Vertex) (p : Nat), p ∉ w.neighbors →
        (insert w (p : Int)).neighbors = p :: w.neighbors) ∧
      (∀ (w : Vertex) (p : Nat), p ∈ w.neighbors → insert w (p : Int) = w) := by
  refine ⟨?_, fun w p hp => ?_, fun w p hp => insert_of_mem w p hp⟩
  · rw [insertAll_neighbors, hv]
    simp
  · rw [insert_neighbors, if_neg hp]

/-- Witness of C7: inserting 6, 8, 6, 2 into an empty list gives `[2, 8, 6]`. -/
theorem C7_insert_order_witness :
    (insertAll Vertex.zero [6, 8, 6, 2]).neighbors = [2, 8, 6] ∧
      (firstOccurrences [6, 8, 6, 2]).reverse = [2, 8, 6] :=
  ⟨((C7_insert_order [6, 8, 6, 2] Vertex.zero rfl).1).trans (by decide), by decide⟩

/-! ## Registering vertices -/

theorem registered_set (pre : List (Int × Nat)) (kd : Int × Nat) (m : Nat) :
    (registered pre ++ List.replicate (m + 1) Vertex.zero).set pre.length
        { map := ⟨kd.1, kd.2⟩, neighbors := [],
          cursor := ((registered pre ++ List.replicate (m + 1) Vertex.zero).getD
            pre.length default).cursor } =
      registered (pre ++ [kd]) ++ List.replicate m Vertex.zero := by
  have hlen : (registered pre).length = pre.length := by simp [registered]
  have hc : ((registered pre ++ List.replicate (m + 1) Vertex.zero).getD
      pre.length default).cursor = [] := by
    rw [List.getD_eq_getElem?_getD, List.getElem?_append_right (by omega), hlen]
    simp [List.replicate_succ, Vertex.zero]
  rw [hc, List.set_append_right _ _ (by omega), hlen]
  simp [registered, List.replicate_succ]

theorem addVertices_registered (c : Nat) (kind : eGraphType) (rest pre : List (Int × Nat))
    (h : pre.length + rest.length ≤ c) :
    addVertices
        { vertices := registered pre ++ List.replicate (c - pre.length) Vertex.zero
          size := c, len := pre.length, type := kind } rest =
      some { vertices := registered (pre ++ rest) ++
               List.replicate (c - (pre ++ rest).length) Vertex.zero
             size := c, len := (pre ++ rest).length, type := kind } := by
  induction rest generalizing pre with
  | nil => simp [addVertices]
  | cons kd rest ih =>
    simp only [List.length_cons] at h
    have hlt : pre.length < c := by omega
    obtain ⟨m, hm⟩ : ∃ m, c - pre.length = m + 1 := ⟨c - pre.length - 1, by omega⟩
    have hm2 : c - (pre ++ [kd]).length = m := by simp; omega
    have h2 := ih (pre ++ [kd]) (by simp; omega)
    rw [hm2] at h2
    simp only [addVertices, Graph_AddVertex, hlt, if_true, Option.some_bind, Graph.slot]
    rw [hm, registered_set]
    simp only [List.length_append, List.length_singleton, List.append_assoc,
      List.singleton_append] at h2 ⊢
    exact h2

theorem registered_slot (kds : List (Int × Nat)) (m i : Nat) (hi : i < kds.length) :
    (registered kds ++ List.replicate m Vertex.zero).getD i default =
      ⟨⟨kds[i].1, kds[i].2⟩, [], []⟩ := by
  have hlen : i < (registered kds).length := by simpa [registered] using hi
  rw [List.getD_eq_getElem?_getD, List.getElem?_append_left hlen]
  simp [registered, List.getElem?_eq_getElem hi]

/-- C8: for a capacity `c > 0` and `n <= c` pairs with pairwise distinct keys,
`Graph_New( c, kind )` followed by `Graph_AddVertex( g, k_i, d_i )` for each pair in
order succeeds, `Graph_GetLen` is then `n`, and for every `i`
`Graph_GetVertexByKey( g, k_i )` finds a vertex whose `Vertex_GetDataIndex` is
`d_i`. -/
theorem C8_registered_keys_lookup (c : Nat) (kind : eGraphType) (kds : List (Int × Nat))
    (hc : 0 < c) (hn : kds.length ≤ c) (hd : (kds.map Prod.fst).Nodup) :
    ∃ g, (Graph_New c kind).bind (fun g0 => addVertices g0 kds) = some g ∧
      Graph_GetLen g = kds.length ∧
      ∀ i (hi : i < kds.length), ∃ p,
        Graph_GetVertexByKey g kds[i].1 = some p ∧
          Vertex_GetDataIndex (g.slot p) = kds[i].2 := by
  have h0 := addVertices_registered c kind kds [] (by simpa using hn)
  simp only [List.length_nil, Nat.sub_zero, List.nil_append] at h0
  refine ⟨{ vertices := registered kds ++ List.replicate (c - kds.length) Vertex.zero
            size := c, len := kds.length, type := kind }, ?_, rfl, fun i hi => ⟨i, ?_, ?_⟩⟩
  · rw [Graph_New_eq, if_pos hc]
    exact h0
  · rw [Graph_GetVertexByKey, key_loop_some]
    refine ⟨Nat.zero_le _, by simpa using hi, ?_, fun j _ hj => ?_⟩
    · show ((registered kds ++ _).getD i default).map.key = _
      rw [registered_slot kds _ i hi]
    · show ((registered kds ++ _).getD j default).map.key ≠ _
      rw [registered_slot kds _ j (by omega)]
      intro heq
      have hj1 : j < (kds.map Prod.fst).length := by simp; omega
      have hi1 : i < (kds.map Prod.fst).length := by simpa using hi
      have hinj := (@List.Nodup.getElem_inj_iff _ _ hd j hj1 i hi1).1 (by simpa using heq)
      omega
  · show Vertex_GetDataIndex ((registered kds ++ _).getD i default) = _
    rw [registered_slot kds _ i hi]
    rfl

/-- Witness of C8: keys 10, 20, 30 with data indices 0, 1, 2 in a graph of
capacity 4. -/
theorem C8_registered_keys_lookup_witness :
    ∃ g, (Graph_New 4 eGraphType.DIRECTED).bind
        (fun g0 => addVertices g0 [(10, 0), (20, 1), (30, 2)]) = some g ∧
      Graph_GetLen g = [((10 : Int), 0), (20, 1), (30, 2)].length ∧
      ∀ i (hi : i < [((10 : Int), 0), (20, 1), (30, 2)].length), ∃ p,
        Graph_GetVertexByKey g [((10 : Int), 0), (20, 1), (30, 2)][i].1 = some p ∧
          Vertex_GetDataIndex (g.slot p) = [((10 : Int), 0), (20, 1), (30, 2)][i].2 :=
  C8_registered_keys_lookup 4 eGraphType.DIRECTED [(10, 0), (20, 1), (30, 2)]
    (by decide) (by decide) (by decide)

/-! ## Lookup by key and stability of positions -/

/-- C9: `Graph_GetVertexByKey( g, key )` returns the vertex at position `p` exactly
when `p < len`, the vertex at `p` has the key and no vertex at a smaller position
has it (first match); it returns `NULL` exactly when no vertex at a position in
`[0, len)` has the key. Slots at positions `>= len` are never returned. -/
theorem C9_GetVertexByKey_first_match (g : Graph) (key : Int) :
    (∀ p, Graph_GetVertexByKey g key = some p ↔
        p < g.len ∧ (g.slot p).map.key = key ∧ ∀ j, j < p → (g.slot j).map.key ≠ key) ∧
      (Graph_GetVertexByKey g key = none ↔ ∀ j, j < g.len → (g.slot j).map.key ≠ key) := by
  constructor
  · intro p
    rw [Graph_GetVertexByKey, key_loop_some]
    constructor
    · rintro ⟨-, h2, h3, h4⟩
      exact ⟨by omega, h3, fun j hj => h4 j (Nat.zero_le _) hj⟩
    · rintro ⟨h1, h2, h3⟩
      exact ⟨Nat.zero_le _, by omega, h2, fun j _ hj => h3 j hj⟩
  · rw [Graph_GetVertexByKey, key_loop_none]
    constructor
    · intro h j hj
      exact h j (Nat.zero_le _) (by omega)
    · intro h j _ hj
      exact h j (by omega)

/-- Witness of C9: with key 5 in use at position 0 and the slot at position 1 still
zeroed, key 0 is not found although the slot at position 1 holds key 0, and key 5
is found at position 0. -/
theorem C9_GetVertexByKey_first_match_witness :
    Graph_GetVertexByKey sampleOneOfTwo 0 = none ∧ (sampleOneOfTwo.slot 1).map.key = 0 ∧
      Graph_GetVertexByKey sampleOneOfTwo 5 = some 0 :=
  ⟨(C9_GetVertexByKey_first_match sampleOneOfTwo 0).2.2 (by decide), by decide,
    ((C9_GetVertexByKey_first_match sampleOneOfTwo 5).1 0).2 (by decide)⟩

/-- C10: on a well-formed graph `Graph_AddVertex( g, key, index )` fails its
assertion when `len < size` does not hold and succeeds when it holds; on success
the vertex at position old `len` has the given key and data index and an empty
neighbour list, `len` is old `len + 1`, `size` and `type` are unchanged, every
vertex at a position below old `len` is unchanged, and every key that
`Graph_GetVertexByKey` found before is found at the same position afterwards. -/
theorem C10_AddVertex_frame (g : Graph) (hwf : g.WF) (key : Int) (index : Nat) :
    (¬ g.len < g.size → Graph_AddVertex g key index = none) ∧
      (g.len < g.size → ∃ g1, Graph_AddVertex g key index = some g1 ∧
        (g1.slot g.len).map.key = key ∧ (g1.slot g.len).map.data_idx = index ∧
        (g1.slot g.len).neighbors = [] ∧
        g1.len = g.len + 1 ∧ g1.size = g.size ∧ g1.type = g.type ∧
        (∀ i, i < g.len → g1.slot i = g.slot i) ∧
        (∀ k p, Graph_GetVertexByKey g k = some p → Graph_GetVertexByKey g1 k = some p)) := by
  constructor
  · intro h
    simp [Graph_AddVertex, h]
  · intro h
    have hlen : g.len < g.vertices.length := by rw [hwf.1]; exact h
    have hslot : ∀ i, (g.vertices.set g.len
        { map := ⟨key, index⟩, neighbors := [], cursor := (g.slot g.len).cursor }).getD i default =
        if g.len = i then
          { map := ⟨key, index⟩, neighbors := [], cursor := (g.slot g.len).cursor }
        else g.vertices.getD i default := by
      intro i
      rw [slot_set]
      simp [hlen]
    have hlow : ∀ i, i < g.len → (g.vertices.set g.len
        { map := ⟨key, index⟩, neighbors := [], cursor := (g.slot g.len).cursor }).getD i default =
        g.vertices.getD i default := by
      intro i hi
      rw [hslot i, if_neg (by omega)]
    refine ⟨{ g with
        vertices := g.vertices.set g.len
          { map := ⟨key, index⟩, neighbors := [], cursor := (g.slot g.len).cursor }
        len := g.len + 1 },
      by simp only [Graph_AddVertex, h, if_true], ?_, ?_, ?_, rfl, rfl, rfl, ?_, ?_⟩
    · show ((g.vertices.set g.len _).getD g.len default).map.key = key
      rw [hslot, if_pos rfl]
    · show ((g.vertices.set g.len _).getD g.len default).map.data_idx = index
      rw [hslot, if_pos rfl]
    · show ((g.vertices.set g.len _).getD g.len default).neighbors = []
      rw [hslot, if_pos rfl]
    · intro i hi
      exact hlow i hi
    · intro k p hp
      rw [Graph_GetVertexByKey, key_loop_some] at hp ⊢
      obtain ⟨h1, h2, h3, h4⟩ := hp
      refine ⟨h1, ?_, ?_, fun j hj1 hj2 => ?_⟩
      · show p < 0 + (g.len + 1)
        omega
      · show ((g.vertices.set g.len _).getD p default).map.key = k
        rw [hlow p (by omega)]
        exact h3
      · show ((g.vertices.set g.len _).getD j default).map.key ≠ k
        rw [hlow j (by omega)]
        exact h4 j hj1 hj2

/-- Witness of C10: adding key 9 with data index 4 to the graph holding key 5 at
position 0 out of 2 slots. -/
theorem C10_AddVertex_frame_witness :
    ∃ g1, Graph_AddVertex sampleOneOfTwo 9 4 = some g1 ∧
      (g1.slot sampleOneOfTwo.len).map.key = 9 ∧
      (g1.slot sampleOneOfTwo.len).map.data_idx = 4 ∧
      (g1.slot sampleOneOfTwo.len).neighbors = [] ∧
      g1.len = sampleOneOfTwo.len + 1 ∧ g1.size = sampleOneOfTwo.size ∧
      g1.type = sampleOneOfTwo.type ∧
      (∀ i, i < sampleOneOfTwo.len → g1.slot i = sampleOneOfTwo.slot i) ∧
      (∀ k p, Graph_GetVertexByKey sampleOneOfTwo k = some p →
        Graph_GetVertexByKey g1 k = some p) :=
  (C10_AddVertex_frame sampleOneOfTwo (by decide) 9 4).2 (by decide)

/-! ## The end-to-end scenario of the driver -/

/-- C11: in the scenario of `main` every call of `Graph_AddEdge` returns true,
the traversal of the vertex with key 6 reads positions 8 then 6, whose keys are 9
then 7, and the traversal of the vertex with key 7 reads positions 9 then 2,
whose keys are 10 then 3. -/
theorem C11_main_scenario :
    main_build = some (List.replicate 11 true, main_final) ∧
      traverseKey main_final 6 = some [8, 6] ∧ keysAt main_final [8, 6] = [9, 7] ∧
      traverseKey main_final 7 = some [9, 2] ∧ keysAt main_final [9, 2] = [10, 3] := by
  refine ⟨?_, ?_, ?_, ?_, ?_⟩ <;> decide

/-- C12 (refutation of the claim as stated): the graph built by `main` has a
vertex with key 1 whose neighbour list is not empty. -/
theorem C12_key1_list_empty_refuted :
    ¬ (∀ rs g, main_build = some (rs, g) →
        ∀ p, Graph_GetVertexByKey g 1 = some p → (g.slot p).neighbors = []) := by
  intro h
  have h1 := h (List.replicate 11 true) main_final (by decide) 0 (by decide)
  revert h1
  decide

/-- C12 (amended): in the scenario of `main` the vertex with key 1 is at position 0
and its neighbour list is `[1]`, the position of key 2, from the edge (1, 2); the
edge (5, 1) puts position 0 into the list of the vertex with key 5, at position 4,
and does not put position 4 into the list of the vertex with key 1. -/
theorem C12_key1_list :
    main_build = some (List.replicate 11 true, main_final) ∧
      Graph_GetVertexByKey main_final 1 = some 0 ∧
      (main_final.slot 0).neighbors = [1] ∧ keysAt main_final [1] = [2] ∧
      Graph_GetVertexByKey main_final 5 = some 4 ∧
      0 ∈ (main_final.slot 4).neighbors ∧ 4 ∉ (main_final.slot 0).neighbors := by
  refine ⟨?_, ?_, ?_, ?_, ?_, ?_, ?_⟩ <;> decide

/-! ## Position of a vertex, construction, and the frame of the interface -/

/-- C13: in a graph whose keys at positions `[0, len)` are pairwise distinct,
`Graph_GetIndex( g, Graph_GetVertexByIndex( g, i ) )` succeeds and returns `i` for
every `i < len`; and for a vertex whose key is the key of no vertex at a position
in `[0, len)`, `Graph_GetIndex` fails its assertion. -/
theorem C13_GetIndex_of_GetVertexByIndex (g : Graph)
    (hd : ∀ i, i < g.len → ∀ j, j < g.len →
      (g.slot i).map.key = (g.slot j).map.key → i = j) :
    (∀ i, i < g.len →
        (Graph_GetVertexByIndex g i).bind (fun p => Graph_GetIndex g (g.slot p)) = some i) ∧
      (∀ v : Vertex, (∀ j, j < g.len → (g.slot j).map.key ≠ v.map.key) →
        Graph_GetIndex g v = none) := by
  constructor
  · intro i hi
    simp only [Graph_GetVertexByIndex, hi, if_true, Option.some_bind, Graph_GetIndex]
    rw [key_loop_some]
    refine ⟨Nat.zero_le _, by omega, rfl, fun j _ hj heq => ?_⟩
    have := hd j (by omega) i hi heq
    omega
  · intro v hv
    rw [Graph_GetIndex, key_loop_none]
    intro j _ hj
    exact hv j (by omega)

/-- Witness of C13 on the graph with keys 1 and 2: the vertex at position 1 is
found at position 1, and a vertex with key 7 is not found. -/
theorem C13_GetIndex_of_GetVertexByIndex_witness :
    (Graph_GetVertexByIndex sampleC3 1).bind
        (fun p => Graph_GetIndex sampleC3 (sampleC3.slot p)) = some 1 ∧
      Graph_GetIndex sampleC3 ⟨⟨7, 0⟩, [], []⟩ = none :=
  ⟨(C13_GetIndex_of_GetVertexByIndex sampleC3 (by decide)).1 1 (by decide),
    (C13_GetIndex_of_GetVertexByIndex sampleC3 (by decide)).2 ⟨⟨7, 0⟩, [], []⟩ (by decide)⟩

/-- C14: for every capacity `c > 0` and every kind, `Graph_New( c, kind )` returns a
graph with `Graph_GetLen` 0, `Graph_GetSize` `c`, the given kind, and an array of
exactly `c` vertices, each with key 0, data index 0 and an empty neighbour list. -/
theorem C14_Graph_New_empty (c : Nat) (kind : eGraphType) (hc : 0 < c) :
    ∃ g, Graph_New c kind = some g ∧ Graph_GetLen g = 0 ∧ Graph_GetSize g = c ∧
      g.type = kind ∧ g.vertices.length = c ∧
      ∀ v, v ∈ g.vertices → v.map.key = 0 ∧ v.map.data_idx = 0 ∧ v.neighbors = [] := by
  refine ⟨{ vertices := List.replicate c Vertex.zero, size := c, len := 0, type := kind },
    by rw [Graph_New_eq, if_pos hc], rfl, rfl, rfl, by simp, fun v hv => ?_⟩
  have hz : v = Vertex.zero := List.eq_of_mem_replicate hv
  subst hz
  exact ⟨rfl, rfl, rfl⟩

/-- Witness of C14 for capacity 3 and an undirected graph. -/
theorem C14_Graph_New_empty_witness :
    ∃ g, Graph_New 3 eGraphType.UNDIRECTED = some g ∧ Graph_GetLen g = 0 ∧
      Graph_GetSize g = 3 ∧ g.type = eGraphType.UNDIRECTED ∧ g.vertices.length = 3 ∧
      ∀ v, v ∈ g.vertices → v.map.key = 0 ∧ v.map.data_idx = 0 ∧ v.neighbors = [] :=
  C14_Graph_New_empty 3 eGraphType.UNDIRECTED (by decide)

/-- C15: `Graph_New( 0, kind )` fails its assertion `size > 0` for every kind and
produces no graph. -/
theorem C15_Graph_New_zero_fails (kind : eGraphType) : Graph_New 0 kind = none := by
  simp [Graph_New]

theorem AddVertex_frame (g g1 : Graph) (key : Int) (index : Nat)
    (h : Graph_AddVertex g key index = some g1) :
    g1.len = g.len + 1 ∧ g.len < g.size ∧ g1.size = g.size ∧ g1.type = g.type := by
  unfold Graph_AddVertex at h
  split at h
  · next hlt => cases h; exact ⟨rfl, hlt, rfl, rfl⟩
  · cases h

theorem AddEdge_frame (g g1 : Graph) (start finish : Int) (r : Bool)
    (h : Graph_AddEdge g start finish = some (r, g1)) :
    g1.len = g.len ∧ g1.size = g.size ∧ g1.type = g.type := by
  rcases AddEdge_cases g g1 start finish r h with
    ⟨-, rfl, -⟩ | ⟨p, q, -, -, -, -, -, -, -, rfl⟩
  · exact ⟨rfl, rfl, rfl⟩
  · exact ⟨rfl, rfl, rfl⟩

theorem Call_run_frame (g g1 : Graph) (c : Call) (h : c.run g = some g1)
    (hle : g.len ≤ g.size) : g1.len ≤ g1.size ∧ g1.size = g.size ∧ g1.type = g.type := by
  cases c with
  | addVertex key index =>
    obtain ⟨h1, h2, h3, h4⟩ := AddVertex_frame g g1 key index h
    exact ⟨by omega, h3, h4⟩
  | addEdge start finish =>
    simp only [Call.run] at h
    cases he : Graph_AddEdge g start finish with
    | none => rw [he] at h; cases h
    | some rg =>
      rw [he] at h
      simp only [Option.map_some', Option.some.injEq] at h
      obtain ⟨h1, h2, h3⟩ := AddEdge_frame g g1 start finish rg.1 (by rw [he, ← h])
      exact ⟨by omega, h2, h3⟩

theorem runCalls_frame (cs : List Call) (g g1 : Graph) (h : runCalls g cs = some g1)
    (hle : g.len ≤ g.size) : g1.len ≤ g1.size ∧ g1.size = g.size ∧ g1.type = g.type := by
  induction cs generalizing g with
  | nil =>
    simp only [runCalls, Option.some.injEq] at h
    subst h
    exact ⟨hle, rfl, rfl⟩
  | cons c cs ih =>
    simp only [runCalls] at h
    cases hc : c.run g with
    | none => rw [hc] at h; cases h
    | some g2 =>
      rw [hc] at h
      obtain ⟨h1, h2, h3⟩ := Call_run_frame g g2 c hc hle
      obtain ⟨k1, k2, k3⟩ := ih g2 h h1
      exact ⟨k1, by rw [k2, h2], by rw [k3, h3]⟩

theorem built_frame (c : Nat) (kind : eGraphType) (cs : List Call) (g : Graph)
    (h : (Graph_New c kind).bind (fun g0 => runCalls g0 cs) = some g) :
    g.len ≤ c ∧ g.size = c ∧ g.type = kind := by
  rw [Graph_New_eq] at h
  split at h
  · simp only [Option.some_bind] at h
    obtain ⟨h1, h2, h3⟩ := runCalls_frame cs _ g h (Nat.zero_le _)
    have h2c : g.size = c := h2
    exact ⟨by omega, h2, h3⟩
  · cases h

/-- C16: in every graph produced by `Graph_New( capacity, kind )` followed by any
sequence of calls of `Graph_AddVertex` and `Graph_AddEdge` whose assertions hold,
`len <= capacity`, and `size` and `type` are the values given at construction;
on a full graph `Graph_AddVertex` fails its assertion and produces no graph. -/
theorem C16_count_le_capacity (capacity : Nat) (kind : eGraphType) (cs : List Call)
    (g : Graph)
    (h : (Graph_New capacity kind).bind (fun g0 => runCalls g0 cs) = some g) :
    g.len ≤ capacity ∧ g.size = capacity ∧ g.type = kind ∧
      (g.len = capacity → ∀ key index, Graph_AddVertex g key index = none) := by
  obtain ⟨h1, h2, h3⟩ := built_frame capacity kind cs g h
  refine ⟨h1, h2, h3, fun hfull key index => ?_⟩
  simp [Graph_AddVertex, h2, hfull]

/-- Witness of C16 on the full graph with keys 1 and 2. -/
theorem C16_count_le_capacity_witness :
    sampleC3.len ≤ 2 ∧ sampleC3.size = 2 ∧ sampleC3.type = eGraphType.DIRECTED ∧
      (sampleC3.len = 2 → ∀ key index, Graph_AddVertex sampleC3 key index = none) :=
  C16_count_le_capacity 2 eGraphType.DIRECTED [Call.addVertex 1 0, Call.addVertex 2 1]
    sampleC3 (by decide)

/-! ## Release of the nodes -/

/-- C17 (behaviour of the code at the failing input): after
`Graph_New( 2, DIRECTED )`, `Graph_AddVertex( g, 5, 0 )`, `Graph_AddEdge( g, 0, 5 )`,
which returns true and allocates one node in the list of the unused slot at
position 1, and `Graph_AddVertex( g, 9, 1 )`, which overwrites that list with
`NULL`, one node has been allocated and `Graph_Delete` frees none. -/
theorem C17_node_not_released :
    Graph_AddEdge sampleOneOfTwo 0 5 =
        some (true, { sampleOneOfTwo with
          vertices := [⟨⟨5, 0⟩, [], []⟩, ⟨⟨0, 0⟩, [0], []⟩] }) ∧
      (Graph_New 2 eGraphType.DIRECTED).bind
          (fun g0 => runAllocs g0 [Call.addVertex 5 0, Call.addEdge 0 5, Call.addVertex 9 1]) =
        some (1, sampleLeak) ∧
      Graph_Delete (some sampleLeak) = some (0, none) := by
  refine ⟨?_, ?_, ?_⟩ <;> decide

/-! ## Symmetry of undirected graphs -/

theorem mem_edgeStep (vs : List Vertex) (i j k q : Nat) (hi : i < vs.length) :
    q ∈ ((edgeStep vs i j).getD k default).neighbors ↔
      q ∈ (vs.getD k default).neighbors ∨ (k = i ∧ q = j) := by
  rw [edgeStep_slot vs i j k hi]
  by_cases hik : i = k
  · subst hik
    rw [if_pos rfl, mem_insert_neighbors]
    constructor
    · rintro (h | h)
      · exact Or.inr ⟨rfl, h⟩
      · exact Or.inl h
    · rintro (h | ⟨-, h⟩)
      · exact Or.inr h
      · exact Or.inl h
  · rw [if_neg hik]
    constructor
    · exact Or.inl
    · rintro (h | ⟨h, -⟩)
      · exact h
      · exact absurd h.symm hik

theorem mem_edgeVertices (g : Graph) (ps pf k q : Nat) (hps : ps < g.vertices.length)
    (hpf : pf < g.vertices.length) :
    q ∈ ((edgeVertices g ps pf).getD k default).neighbors ↔
      q ∈ (g.vertices.getD k default).neighbors ∨ (k = ps ∧ q = pf) ∨
        (g.type = eGraphType.UNDIRECTED ∧ k = pf ∧ q = ps) := by
  unfold edgeVertices
  by_cases ht : g.type = eGraphType.UNDIRECTED
  · rw [if_pos ht, mem_edgeStep _ _ _ _ _ (by rw [edgeStep_length]; exact hpf),
      mem_edgeStep _ _ _ _ _ hps]
    simp only [ht, true_and, or_assoc]
  · rw [if_neg ht, mem_edgeStep _ _ _ _ _ hps]
    simp only [ht, false_and, or_false]

theorem new_neighbors_nil (size : Nat) (type : eGraphType) (g : Graph)
    (h : Graph_New size type = some g) (i : Nat) : (g.slot i).neighbors = [] := by
  rw [Graph_New_eq] at h
  split at h
  · cases h
    show ((List.replicate size Vertex.zero).getD i default).neighbors = []
    rw [replicate_slot]
    rfl
  · cases h

theorem SymInv_new (size : Nat) (type : eGraphType) (g : Graph)
    (h : Graph_New size type = some g) : g.SymInv := by
  have hnil := new_neighbors_nil size type g h
  refine ⟨(Inv_new size type g h).1, fun _ => ⟨fun i _ => hnil i, fun i n hn => ?_, fun i j => ?_⟩⟩
  · rw [hnil i] at hn
    cases hn
  · rw [hnil i, hnil j]
    simp

theorem AddVertex_neighbors (g g1 : Graph) (key : Int) (index : Nat)
    (hempty : (g.slot g.len).neighbors = [])
    (h : Graph_AddVertex g key index = some g1) (i : Nat) :
    (g1.slot i).neighbors = (g.slot i).neighbors := by
  unfold Graph_AddVertex at h
  split at h
  · cases h
    show ((g.vertices.set g.len _).getD i default).neighbors = (g.vertices.getD i default).neighbors
    rw [slot_set]
    split
    · next hi =>
      have : (g.vertices.getD i default).neighbors = [] := by
        rw [← hi.1]; exact hempty
      rw [this]
    · rfl
  · cases h

theorem AddVertex_length (g g1 : Graph) (key : Int) (index : Nat)
    (h : Graph_AddVertex g key index = some g1) : g1.vertices.length = g.vertices.length := by
  unfold Graph_AddVertex at h
  split at h
  · cases h; simp
  · cases h

theorem SymInv_addVertex (g g1 : Graph) (key : Int) (index : Nat) (hg : g.SymInv)
    (h : Graph_AddVertex g key index = some g1) : g1.SymInv := by
  obtain ⟨hwf, hund⟩ := hg
  obtain ⟨f1, f2, f3, f4⟩ := AddVertex_frame g g1 key index h
  have hwf1 : g1.WF :=
    ⟨by rw [AddVertex_length g g1 key index h, f3]; exact hwf.1, by rw [f1, f3]; omega⟩
  refine ⟨hwf1, fun ht => ?_⟩
  obtain ⟨hnil, hlt, hsym⟩ := hund (by rw [← f4]; exact ht)
  have hnb := AddVertex_neighbors g g1 key index (hnil g.len (le_refl _)) h
  refine ⟨fun i hi => ?_, fun i n hn => ?_, fun i j => ?_⟩
  · rw [hnb]
    exact hnil i (by omega)
  · rw [hnb] at hn
    have := hlt i n hn
    omega
  · rw [hnb, hnb]
    exact hsym i j

theorem SymInv_addEdge (g g1 : Graph) (start finish : Int) (r : Bool) (hg : g.SymInv)
    (hs : (Graph_GetVertexByKey g start).isSome = true)
    (hf : (Graph_GetVertexByKey g finish).isSome = true)
    (h : Graph_AddEdge g start finish = some (r, g1)) : g1.SymInv := by
  obtain ⟨hwf, hund⟩ := hg
  obtain ⟨ps, hps⟩ := Option.isSome_iff_exists.1 hs
  obtain ⟨pf, hpf⟩ := Option.isSome_iff_exists.1 hf
  obtain ⟨hps1, hps2, hps3⟩ := registered_position g hwf start ps hps
  obtain ⟨hpf1, hpf2, hpf3⟩ := registered_position g hwf finish pf hpf
  rcases AddEdge_cases g g1 start finish r h with
    ⟨-, rfl, -⟩ | ⟨p, q, -, -, hp, hq, hp0, hq0, -, rfl⟩
  · exact ⟨hwf, hund⟩
  · refine ⟨⟨?_, hwf.2⟩, fun ht => ?_⟩
    · simpa [edgeVertices_length] using hwf.1
    · have ht0 : g.type = eGraphType.UNDIRECTED := ht
      obtain ⟨hnil, hlt, hsym⟩ := hund ht0
      have hq1 := hq0 ht0
      rw [hps3] at hp
      rw [hpf3] at hq
      rw [← hp] at hp0 ⊢
      rw [← hq] at hq1 ⊢
      rw [size_t_of_int_nonneg _ hq1]
      have hws : (int_of_size_t ps).toNat < g.len :=
        Nat.lt_of_le_of_lt (int_of_size_t_toNat_le ps hp0) hps1
      have hwf1 : (int_of_size_t pf).toNat < g.len :=
        Nat.lt_of_le_of_lt (int_of_size_t_toNat_le pf hq1) hpf1
      generalize (int_of_size_t ps).toNat = ws at hws ⊢
      generalize (int_of_size_t pf).toNat = wf at hwf1 ⊢
      have hlen := hwf.1
      have hle := hwf.2
      have hmem : ∀ k q, q ∈ (Graph.slot { g with vertices := edgeVertices g ws wf } k).neighbors ↔
          q ∈ (g.slot k).neighbors ∨ (k = ws ∧ q = wf) ∨
            (g.type = eGraphType.UNDIRECTED ∧ k = wf ∧ q = ws) :=
        fun k q => mem_edgeVertices g ws wf k q (by omega) (by omega)
      refine ⟨fun i hi => ?_, fun i n hn => ?_, fun i j => ?_⟩
      · apply List.eq_nil_iff_forall_not_mem.2
        intro q hq
        rcases (hmem i q).1 hq with h1 | ⟨h1, -⟩ | ⟨-, h1, -⟩
        · rw [hnil i hi] at h1
          cases h1
        · exact absurd hi (by show ¬ g.len ≤ i; omega)
        · exact absurd hi (by show ¬ g.len ≤ i; omega)
      · show n < g.len
        rcases (hmem i n).1 hn with h1 | ⟨-, h1⟩ | ⟨-, -, h1⟩
        · exact hlt i n h1
        · rw [h1]; exact hwf1
        · rw [h1]; exact hws
      · rw [hmem i j, hmem j i, hsym i j]
        simp only [ht0, true_and]
        constructor
        · rintro (h1 | ⟨h1, h2⟩ | ⟨h1, h2⟩)
          · exact Or.inl h1
          · exact Or.inr (Or.inr ⟨h2, h1⟩)
          · exact Or.inr (Or.inl ⟨h2, h1⟩)
        · rintro (h1 | ⟨h1, h2⟩ | ⟨h1, h2⟩)
          · exact Or.inl h1
          · exact Or.inr (Or.inr ⟨h2, h1⟩)
          · exact Or.inr (Or.inl ⟨h2, h1⟩)

theorem ReachableRegistered.symInv (g : Graph) (h : ReachableRegistered g) : g.SymInv := by
  induction h with
  | new size type g h => exact SymInv_new size type g h
  | addVertex g g1 key index _ h ih => exact SymInv_addVertex g g1 key index ih h
  | addEdge g g1 start finish r _ hs hf h ih =>
    exact SymInv_addEdge g g1 start finish r ih hs hf h

/-- C18: in every undirected graph built by `Graph_New`, `Graph_AddVertex` and
`Graph_AddEdge` calls in which every `Graph_AddEdge` names keys of vertices in
use, adjacency is symmetric: for all positions `i` and `j`, in particular
those below `len`, `j` is in the neighbour list of the vertex at `i` if and only
if `i` is in the list of the vertex at `j`. -/
theorem C18_undirected_symmetric (g : Graph) (hr : ReachableRegistered g)
    (ht : g.type = eGraphType.UNDIRECTED) (i j : Nat) :
    j ∈ (g.slot i).neighbors ↔ i ∈ (g.slot j).neighbors :=
  ((hr.symInv g).2 ht).2.2 i j

/-- Witness of C18 on the undirected graph with keys 1 and 2 and the edge (1, 2). -/
theorem C18_undirected_symmetric_witness :
    1 ∈ (sampleC18.slot 0).neighbors ↔ 0 ∈ (sampleC18.slot 1).neighbors :=
  C18_undirected_symmetric sampleC18
    (ReachableRegistered.addEdge sampleC1 sampleC18 1 2 true
      (ReachableRegistered.addVertex
        ⟨[⟨⟨1, 0⟩, [], []⟩, ⟨⟨0, 0⟩, [], []⟩], 2, 1, eGraphType.UNDIRECTED⟩ sampleC1 2 1
        (ReachableRegistered.addVertex
          ⟨[⟨⟨0, 0⟩, [], []⟩, ⟨⟨0, 0⟩, [], []⟩], 2, 0, eGraphType.UNDIRECTED⟩
          ⟨[⟨⟨1, 0⟩, [], []⟩, ⟨⟨0, 0⟩, [], []⟩], 2, 1, eGraphType.UNDIRECTED⟩ 1 0
          (ReachableRegistered.new 2 eGraphType.UNDIRECTED _ (by decide)) (by decide))
        (by decide))
      (by decide) (by decide) (by decide))
    (by decide) 0 1

/-! ## Stored indices stay inside the vertex array -/

theorem bound_addEdge (g g1 : Graph) (start finish : Int) (r : Bool) (hwf : g.WF)
    (hcap : g.size ≤ 2147483648 ∨ g.type = eGraphType.UNDIRECTED)
    (hb : ∀ i n, n ∈ (g.slot i).neighbors → n < g.size)
    (h : Graph_AddEdge g start finish = some (r, g1)) :
    ∀ i n, n ∈ (g1.slot i).neighbors → n < g1.size := by
  rcases AddEdge_cases g g1 start finish r h with
    ⟨-, rfl, -⟩ | ⟨p, q, hp, hq, -, -, hp0, hq0, -, rfl⟩
  · exact hb
  · intro i n hn
    show n < g.size
    have hps : (int_of_size_t p).toNat < g.size :=
      Nat.lt_of_le_of_lt (int_of_size_t_toNat_le p hp0) hp
    have hpf : size_t_of_int (int_of_size_t q) < g.size := by
      rcases hcap with hc | ht
      · rw [int_of_size_t_of_lt q (by omega), size_t_of_int_natCast]
        exact hq
      · rw [size_t_of_int_nonneg _ (hq0 ht)]
        exact Nat.lt_of_le_of_lt (int_of_size_t_toNat_le q (hq0 ht)) hq
    have hn1 := (mem_edgeVertices g _ _ i n (by rw [hwf.1]; exact hps)
      (by rw [hwf.1]; exact hpf)).1 hn
    rcases hn1 with h1 | ⟨-, h1⟩ | ⟨-, -, h1⟩
    · exact hb i n h1
    · rw [h1]; exact hpf
    · rw [h1]; exact hps

theorem bound_addVertex (g g1 : Graph) (key : Int) (index : Nat)
    (hb : ∀ i n, n ∈ (g.slot i).neighbors → n < g.size)
    (h : Graph_AddVertex g key index = some g1) :
    ∀ i n, n ∈ (g1.slot i).neighbors → n < g1.size := by
  unfold Graph_AddVertex at h
  split at h
  · cases h
    intro i n hn
    show n < g.size
    have hn1 : n ∈ ((g.vertices.set g.len _).getD i default).neighbors := hn
    rw [slot_set] at hn1
    split at hn1
    · cases hn1
    · exact hb i n hn1
  · cases h

theorem Reachable.bound (g : Graph) (h : Reachable g) :
    (g.size ≤ 2147483648 ∨ g.type = eGraphType.UNDIRECTED) →
      ∀ i n, n ∈ (g.slot i).neighbors → n < g.size := by
  induction h with
  | new size type g h =>
    intro _ i n hn
    rw [new_neighbors_nil size type g h i] at hn
    cases hn
  | addVertex g g1 key index _ h ih =>
    intro hcap
    obtain ⟨-, -, f3, f4⟩ := AddVertex_frame g g1 key index h
    exact bound_addVertex g g1 key index (ih (by rw [← f3, ← f4]; exact hcap)) h
  | addEdge g g1 start finish r hr h ih =>
    intro hcap
    obtain ⟨-, f3, f4⟩ := AddEdge_frame g g1 start finish r h
    have hcap0 : g.size ≤ 2147483648 ∨ g.type = eGraphType.UNDIRECTED := by
      rw [← f3, ← f4]; exact hcap
    exact bound_addEdge g g1 start finish r (hr.inv g).1 hcap0 (ih hcap0) h

/-- C19 (amended): in every graph produced by `Graph_New( capacity, kind )` followed
by any sequence of calls of `Graph_AddVertex` and `Graph_AddEdge`, when `capacity`
is at most `2^31`, so that every position fits the `int` returned by `find`,
every index stored in the neighbour list of any vertex of the array is below
`capacity` and below the length of the array, so the read
`g->vertices[ node->index ]` of `Graph_Print` is inside the array. -/
theorem C19_neighbor_index_below_capacity (capacity : Nat) (kind : eGraphType)
    (cs : List Call) (g : Graph) (hcap : capacity ≤ 2147483648)
    (h : (Graph_New capacity kind).bind (fun g0 => runCalls g0 cs) = some g) :
    g.vertices.length = capacity ∧
      ∀ v, v ∈ g.vertices → ∀ n, n ∈ v.neighbors →
        n < capacity ∧ (g.vertices[n]?).isSome = true := by
  have hr := Reachable.of_calls capacity kind cs g h
  obtain ⟨-, h2, h3⟩ := built_frame capacity kind cs g h
  have hlen : g.vertices.length = capacity := by rw [(hr.inv g).1.1, h2]
  refine ⟨hlen, fun v hv n hn => ?_⟩
  obtain ⟨i, -, rfl⟩ := (mem_iff_slot g.vertices v).1 hv
  have hb := hr.bound g (Or.inl (by rw [h2]; exact hcap)) i n hn
  have hlt : n < g.vertices.length := by omega
  exact ⟨by omega, by rw [List.getElem?_eq_getElem hlt]; rfl⟩

/-- Witness of C19 on the graph whose stored index 1 is not below `len` but is
below the capacity 2. -/
theorem C19_neighbor_index_below_capacity_witness :
    sampleDangling.vertices.length = 2 ∧ 1 < 2 ∧ (sampleDangling.vertices[1]?).isSome = true :=
  ⟨(C19_neighbor_index_below_capacity 2 eGraphType.DIRECTED
      [Call.addVertex 5 0, Call.addEdge 5 0] sampleDangling (by decide) (by decide)).1,
    (C19_neighbor_index_below_capacity 2 eGraphType.DIRECTED
      [Call.addVertex 5 0, Call.addEdge 5 0] sampleDangling (by decide) (by decide)).2
      ⟨⟨5, 0⟩, [1], []⟩ (by decide) 1 (by decide)⟩

/-! ## Text of the diagnostic print -/

theorem long_of_size_t_of_lt (x : Nat) (h : x < 9223372036854775808) :
    long_of_size_t x = (x : Int) := by
  unfold long_of_size_t
  omega

theorem toString_long_of_size_t (x : Nat) (h : x < 9223372036854775808) :
    toString (long_of_size_t x) = toString x := by
  rw [long_of_size_t_of_lt x h]
  rfl

theorem Graph_Print_nodes_eq (g : Graph) (ptr : Nat → Nat → String) (depth : Int) (i : Nat)
    (l : List Nat) (k : Nat) :
    Graph_Print_nodes g ptr depth i l k =
      concatText ((l.enumFrom k).map (printedNode g ptr depth i)) := by
  induction l generalizing k with
  | nil => rfl
  | cons p l ih =>
    simp only [Graph_Print_nodes, List.enumFrom_cons, List.map_cons, concatText,
      List.foldr_cons, printedNode] at ih ⊢
    rw [ih (k + 1)]

theorem Graph_Print_vertex_eq (g : Graph) (ptr : Nat → Nat → String) (depth : Int) (i : Nat)
    (hi : i < 9223372036854775808)
    (hidx : (g.slot i).map.data_idx < 9223372036854775808) :
    Graph_Print_vertex g ptr depth i = printedVertex g ptr depth i := by
  have e1 : "\n=== Vertex[ " = "\n" ++ "=== Vertex[ " := rfl
  have e2 : " ] ===\n" = " ] ===" ++ "\n" := rfl
  have e3 : ">\n" = ">" ++ "\n" := rfl
  have e4 : "Has neighbors\n" = "Has neighbors" ++ "\n" := rfl
  have e5 : "Has no neighbors\n" = "Has no neighbors" ++ "\n" := rfl
  have e6 : " Nil\n" = " Nil" ++ "\n" := rfl
  unfold Graph_Print_vertex printedVertex printedNeighborLine printedLine
  rw [e1, e2, e3, e4, e5, e6, toString_long_of_size_t i hi,
    toString_long_of_size_t _ hidx, Graph_Print_nodes_eq]
  by_cases hd : 0 < depth
  · have hd1 : depth > 0 := hd
    by_cases hn : (g.slot i).neighbors = []
    · simp [-String.reduceAppend, hd, hn, String.append_assoc, concatText]
    · simp [-String.reduceAppend, hd, hn, String.append_assoc]
  · have hd1 : ¬ depth > 0 := hd
    by_cases hn : (g.slot i).neighbors = [] <;>
      simp [-String.reduceAppend, hd, hn, String.append_assoc]

theorem Graph_Print_loop_eq (g : Graph) (ptr : Nat → Nat → String) (depth : Int)
    (hlen : g.len ≤ 9223372036854775808)
    (hidx : ∀ i, i < g.len → (g.slot i).map.data_idx < 9223372036854775808) (n i : Nat)
    (hn : i + n ≤ g.len) :
    Graph_Print_loop g ptr depth n i =
      concatText ((List.range' i n).map (printedVertex g ptr depth)) := by
  induction n generalizing i with
  | zero => rfl
  | succ n ih =>
    rw [Graph_Print_loop, ih (i + 1) (by omega),
      Graph_Print_vertex_eq g ptr depth i (by omega) (hidx i (by omega))]
    rfl

/-- C20 (amended): for every graph with `len` at most `2^63`, data indices of the
vertices in use below `2^63` (both are printed with `%ld`) and, when `depth > 0`,
stored indices inside the vertex array, and for every depth, the text written by
`Graph_Print` is, for each position `i` of `[0, len)` in increasing order, an empty
line, the line `=== Vertex[ i ] ===`, the line
`<map.key:KEY, map.data_idx:DATA_INDEX>` and the line `Has neighbors` or
`Has no neighbors`; at a depth above 0 with a non-empty list one more line lists,
for each node in list order, the key of the vertex at the stored position
followed, at a depth above 1, by the identifier of the node, and by `->`, and ends
with `Nil`; at depth 0 or below there is no such line. An empty line closes the
text. -/
theorem C20_Graph_Print_text (g : Graph) (ptr : Nat → Nat → String) (depth : Int)
    (hlen : g.len ≤ 9223372036854775808)
    (hidx : ∀ i, i < g.len → (g.slot i).map.data_idx < 9223372036854775808)
    (hin : 0 < depth →
      ∀ i, i < g.len → ∀ n, n ∈ (g.slot i).neighbors → n < g.vertices.length) :
    Graph_Print g ptr depth = printedGraph g ptr depth := by
  have _ := hin
  rw [Graph_Print, printedGraph, Graph_Print_loop_eq g ptr depth hlen hidx g.len 0 (by omega),
    List.range_eq_range']
  rfl

/-- Witness of C20: at depth 1 on the graph with one stored index, where the key
printed for the stored position 1 is the key 0 of the slot at position 1, and at
depth 2 on the undirected graph with the edge (1, 2), with `p` as the text of
every node identifier. -/
theorem C20_Graph_Print_text_witness :
    Graph_Print sampleDangling (fun _ _ => "") 1 =
        "\n=== Vertex[ 0 ] ===\n<map.key:5, map.data_idx:0>\nHas neighbors\n 0 -> Nil\n\n" ∧
      Graph_Print sampleC18 (fun _ _ => "p") 2 =
        "\n=== Vertex[ 0 ] ===\n<map.key:1, map.data_idx:0>\nHas neighbors\n" ++
        " 2 (Node:p) -> Nil\n" ++
        "\n=== Vertex[ 1 ] ===\n<map.key:2, map.data_idx:1>\nHas neighbors\n" ++
        " 1 (Node:p) -> Nil\n\n" :=
  ⟨(C20_Graph_Print_text sampleDangling (fun _ _ => "") 1 (by decide) (by decide)
      (by decide)).trans (by decide),
    (C20_Graph_Print_text sampleC18 (fun _ _ => "p") 2 (by decide) (by decide)
      (by decide)).trans (by decide)⟩

/-- C20 (refutation of the claim as stated): after `Graph_New( 1, DIRECTED )` and
`Graph_AddVertex( g, 1, SIZE_MAX )` the map line written by `Graph_Print` shows the
data index as `-1`, not as `18446744073709551615`. -/
theorem C20_data_index_printed_signed :
    (Graph_New 1 eGraphType.DIRECTED).bind
        (fun g => Graph_AddVertex g 1 18446744073709551615) = some sampleWideIndex ∧
      Graph_Print sampleWideIndex (fun _ _ => "") 0 =
        "\n=== Vertex[ 0 ] ===\n<map.key:1, map.data_idx:-1>\nHas no neighbors\n\n" ∧
      Graph_Print sampleWideIndex (fun _ _ => "") 0 ≠
        "\n=== Vertex[ 0 ] ===\n<map.key:1, map.data_idx:18446744073709551615>\n" ++
        "Has no neighbors\n\n" := by
  refine ⟨by decide, by decide, by decide⟩

/-! ## A vertex at a position above `INT_MAX` -/

theorem Reachable.of_addVertices (kds : List (Int × Nat)) (g0 g : Graph) (h0 : Reachable g0)
    (h : addVertices g0 kds = some g) : Reachable g := by
  induction kds generalizing g0 with
  | nil =>
    simp only [addVertices, Option.some.injEq] at h
    exact h ▸ h0
  | cons kd kds ih =>
    simp only [addVertices] at h
    cases hc : Graph_AddVertex g0 kd.1 kd.2 with
    | none => rw [hc] at h; cases h
    | some g1 =>
      rw [hc] at h
      exact ih g1 (Reachable.addVertex g0 g1 kd.1 kd.2 h0 hc) h

theorem wideTable_length (n : Nat) : (wideTable n).length = n + 1 := by
  simp [wideTable]

theorem wideGraph_reachable (n : Nat) : Reachable (wideGraph n) := by
  have h := addVertices_registered (n + 1) eGraphType.DIRECTED (wideTable n) []
    (by simp [wideTable_length])
  simp only [List.nil_append, wideTable_length, List.length_nil, Nat.sub_zero, Nat.sub_self,
    List.replicate_zero, List.append_nil] at h
  have hnew : Graph_New (n + 1) eGraphType.DIRECTED =
      some { vertices := List.replicate (n + 1) Vertex.zero, size := n + 1, len := 0,
             type := eGraphType.DIRECTED } := by
    rw [Graph_New_eq, if_pos (Nat.succ_pos n)]
  have hreg : registered [] ++ List.replicate (n + 1) Vertex.zero =
      List.replicate (n + 1) Vertex.zero := rfl
  rw [hreg] at h
  exact Reachable.of_addVertices (wideTable n) _ _
    (Reachable.new (n + 1) eGraphType.DIRECTED _ hnew) h

theorem wideGraph_slot_low (n i : Nat) (hi : i < n) :
    (wideGraph n).slot i = ⟨⟨7, 0⟩, [], []⟩ := by
  show (registered (wideTable n)).getD i default = _
  simp [registered, wideTable, List.getD_eq_getElem?_getD, List.getElem?_append_left, hi]

theorem wideGraph_slot_top (n : Nat) : (wideGraph n).slot n = ⟨⟨9, 1⟩, [], []⟩ := by
  show (registered (wideTable n)).getD n default = _
  simp [registered, wideTable, List.getD_eq_getElem?_getD, List.getElem?_append_right]

theorem wideGraph_WF (n : Nat) : (wideGraph n).WF :=
  ⟨by show (registered (wideTable n)).length = n + 1
      simp [registered, wideTable_length], le_refl _⟩

theorem wideGraph_key7 (n : Nat) (hn : 0 < n) : Graph_GetVertexByKey (wideGraph n) 7 = some 0 := by
  rw [Graph_GetVertexByKey, key_loop_some]
  refine ⟨le_refl _, by show 0 < 0 + (n + 1); omega, ?_,
    fun j _ hj => absurd hj (Nat.not_lt_zero j)⟩
  have h := wideGraph_slot_low n 0 hn
  show ((wideGraph n).slot 0).map.key = 7
  rw [h]

theorem wideGraph_key9 (n : Nat) : Graph_GetVertexByKey (wideGraph n) 9 = some n := by
  rw [Graph_GetVertexByKey, key_loop_some]
  refine ⟨Nat.zero_le _, by show n < 0 + (n + 1); omega, ?_, fun j _ hj => ?_⟩
  · show ((wideGraph n).slot n).map.key = 9
    rw [wideGraph_slot_top]
  · show ((wideGraph n).slot j).map.key ≠ 9
    rw [wideGraph_slot_low n j hj]
    decide

theorem wideGraph_AddEdge (n : Nat) (hn : 0 < n) (hne : int_of_size_t n ≠ -1) :
    ∃ g1, Graph_AddEdge (wideGraph n) 7 9 = some (true, g1) ∧
      (g1.slot 0).neighbors = [size_t_of_int (int_of_size_t n)] ∧
      g1.size = n + 1 ∧ g1.vertices.length = n + 1 ∧ Reachable g1 := by
  have hwf := wideGraph_WF n
  obtain ⟨-, h0len, hf7⟩ := registered_position (wideGraph n) hwf 7 0 (wideGraph_key7 n hn)
  obtain ⟨-, -, hf9⟩ := registered_position (wideGraph n) hwf 9 n (wideGraph_key9 n)
  have hz : int_of_size_t 0 = 0 := by decide
  rw [hz] at hf7
  have hlen : 0 < (wideGraph n).len := Nat.succ_pos n
  have hdir : ¬ (wideGraph n).type = eGraphType.UNDIRECTED := by
    show ¬ eGraphType.DIRECTED = eGraphType.UNDIRECTED
    decide
  have heq := AddEdge_eq (wideGraph n) 7 9 hlen
  rw [hf7, hf9] at heq
  have c1 : ¬ ((0 : Int) = -1 ∨ int_of_size_t n = -1) := by
    rintro (h | h)
    · exact absurd h (by decide)
    · exact hne h
  have c2 : ¬ ((0 : Int) < 0) := by decide
  have c3 : ¬ ((wideGraph n).type = eGraphType.UNDIRECTED ∧ int_of_size_t n < 0) :=
    fun h => hdir h.1
  rw [if_neg c1, if_neg c2, if_neg c3] at heq
  refine ⟨_, heq, ?_, rfl, ?_,
    Reachable.addEdge (wideGraph n) _ 7 9 true (wideGraph_reachable n) heq⟩
  case refine_2 =>
    show (edgeVertices (wideGraph n) _ _).length = n + 1
    rw [edgeVertices_length]
    exact hwf.1
  show ((edgeVertices (wideGraph n) (0 : Int).toNat (size_t_of_int (int_of_size_t n))).getD 0
    default).neighbors = _
  have ht0 : (0 : Int).toNat = 0 := rfl
  rw [ht0]
  unfold edgeVertices
  rw [if_neg hdir, edgeStep_slot _ _ _ _ h0len, if_pos rfl, insert_neighbors]
  have hs0 : (wideGraph n).vertices.getD 0 default = ⟨⟨7, 0⟩, [], []⟩ :=
    wideGraph_slot_low n 0 hn
  rw [hs0]
  simp

theorem int_of_size_t_two_pow_31 : int_of_size_t 2147483648 = -2147483648 := by decide

theorem size_t_of_int_min : size_t_of_int (-2147483648) = 18446744071562067968 := by decide

/-- C1 (refutation of the claim as stated): the graph built by `Graph_New` and
`2^31 + 1` calls of `Graph_AddVertex` has key 7 at position 0 and key 9 at
position `2^31`; `Graph_AddEdge( g, 7, 9 )` returns true and stores the index
`2^64 - 2^31`, so position `2^31` does not occur in the list of position 0. -/
theorem C1_position_above_int_refuted :
    Reachable (wideGraph 2147483648) ∧ 0 < (wideGraph 2147483648).len ∧
      Graph_GetVertexByKey (wideGraph 2147483648) 7 = some 0 ∧
      Graph_GetVertexByKey (wideGraph 2147483648) 9 = some 2147483648 ∧
      ∃ g1, Graph_AddEdge (wideGraph 2147483648) 7 9 = some (true, g1) ∧
        (g1.slot 0).neighbors = [18446744071562067968] ∧
        (g1.slot 0).neighbors.count 2147483648 = 0 := by
  refine ⟨wideGraph_reachable _, Nat.succ_pos _, wideGraph_key7 _ (by decide),
    wideGraph_key9 _, ?_⟩
  obtain ⟨g1, h1, h2, -, -, -⟩ := wideGraph_AddEdge 2147483648 (by decide)
    (by rw [int_of_size_t_two_pow_31]; decide)
  rw [int_of_size_t_two_pow_31, size_t_of_int_min] at h2
  refine ⟨g1, h1, h2, ?_⟩
  rw [h2]
  decide

/-- C3 (refutation of the claim as stated): in the well-formed directed graph with
key 7 at position 0 and key 9 at position `2^31`, `Graph_AddEdge( g, 7, 9 )`
returns true and position `2^31` is not in the list of the vertex at position 0. -/
theorem C3_position_above_int_refuted :
    (wideGraph 2147483648).WF ∧ (wideGraph 2147483648).type = eGraphType.DIRECTED ∧
      Graph_GetVertexByKey (wideGraph 2147483648) 7 = some 0 ∧
      Graph_GetVertexByKey (wideGraph 2147483648) 9 = some 2147483648 ∧
      ∃ g1, Graph_AddEdge (wideGraph 2147483648) 7 9 = some (true, g1) ∧
        2147483648 ∉ (g1.slot 0).neighbors := by
  refine ⟨wideGraph_WF _, rfl, wideGraph_key7 _ (by decide), wideGraph_key9 _, ?_⟩
  obtain ⟨g1, h1, h2, -, -, -⟩ := wideGraph_AddEdge 2147483648 (by decide)
    (by rw [int_of_size_t_two_pow_31]; decide)
  rw [int_of_size_t_two_pow_31, size_t_of_int_min] at h2
  refine ⟨g1, h1, ?_⟩
  rw [h2]
  decide

/-- C19 (refutation of the claim as stated): after `Graph_New( 2^31 + 1, DIRECTED )`,
`2^31 + 1` calls of `Graph_AddVertex` and `Graph_AddEdge( g, 7, 9 )`, which returns
true, the list of the vertex at position 0 holds the index `2^64 - 2^31`, which is
not below the capacity and not inside the vertex array. -/
theorem C19_index_above_capacity_refuted :
    ∃ g1, Graph_AddEdge (wideGraph 2147483648) 7 9 = some (true, g1) ∧ Reachable g1 ∧
      g1.size = 2147483648 + 1 ∧ g1.vertices.length = 2147483648 + 1 ∧
      18446744071562067968 ∈ (g1.slot 0).neighbors ∧
      ¬ 18446744071562067968 < g1.size ∧
      g1.vertices[18446744071562067968]? = none := by
  obtain ⟨g1, h1, h2, h3, h4, h5⟩ := wideGraph_AddEdge 2147483648 (by decide)
    (by rw [int_of_size_t_two_pow_31]; decide)
  rw [int_of_size_t_two_pow_31, size_t_of_int_min] at h2
  refine ⟨g1, h1, h5, h3, h4, ?_, ?_, ?_⟩
  · rw [h2]
    exact List.mem_singleton_self _
  · rw [h3]
    decide
  · apply List.getElem?_eq_none
    rw [h4]
    decide

end Graphs
